import Mathlib

/-!
Shallow embedding of the SpareRoomReservationSystem reservation logic
(core/views.py, core/management/commands/cleanup.py,
core/management/commands/send_access_codes.py, core/models.py).

Dates are modelled as day indices (Nat), instants as absolute minutes (Int,
one day = 1440 minutes).  The TIME_SLOTS table and the settings values
(RESERVATION_BOOKING_WINDOW_MINUTES and friends) live outside src/ (they
come from the Django settings module), so they are parameters of an Env
record; the defaults hard-coded via getattr in the source are noted there.
The reservation table is a list of rows; Django querysets become filters,
updates become maps, and transaction.atomic blocks that abort on an
exception become Except values whose error case leaves the state untouched.
-/

/-- Status column of a Reservation row (models.py, Reservation.STATUS_CHOICES). -/
inductive RStatus
  | pending
  | approved
  | rejected
  | expired
  | cancelled
deriving DecidableEq, Repr

/-- Role column of a Student row (models.py, Student.ROLE_CHOICES). -/
inductive Role
  | user
  | manager
deriving DecidableEq, Repr

/-- One row of the Reservation table (models.py).  cancelledSeatsInfo keeps
the seat list stored as JSON in the cancelled_seats_info text column. -/
structure Reservation where
  rid : Nat
  batchId : Nat
  studentId : Nat
  classroomId : Nat
  seatRow : Nat
  seatCol : Nat
  date : Nat
  timeSlot : Nat
  status : RStatus
  createdAt : Int
  isAdminAction : Bool
  cancelledSeatsInfo : List (Nat × Nat)
deriving DecidableEq, Repr

abbrev State := List Reservation

/-- Environment of the views: the TIME_SLOTS assoc list (slot id to the
parsed start minute of day, none when the label is missing or unparseable)
and the settings values read through getattr, with their code defaults
30 / 24 / 1 / 15 / 2 / 7 noted in views.py and the commands. -/
structure Env where
  slots : List (Nat × Option Int)
  bookingWindowMinutes : Int
  timeoutHours : Int
  expireDays : Nat
  notifyMinutes : Int
  maxAheadUser : Nat
  maxAheadManager : Nat

/-- Start minute of day of a slot: dict(TIME_SLOTS).get(slot, "") followed
by parsing the part of the label before the dash (views.py lines 348-353). -/
def slotStartMin (env : Env) (t : Nat) : Option Int :=
  match env.slots.lookup t with
  | some (some m) => some m
  | _ => none

/-- Absolute minute of a (date, minute-of-day) pair,
datetime.combine(req_date, time(h, m)). -/
def slotAbs (d : Nat) (m : Int) : Int :=
  (d : Int) * 1440 + m

/-- The booking/operation deadline has passed: slot start minus
RESERVATION_BOOKING_WINDOW_MINUTES is at or before now (views.py lines
356-360; false when the slot label is absent or unparseable, in which case
the source swallows the exception and skips the check). -/
def deadlineHit (env : Env) (now : Int) (d t : Nat) : Bool :=
  match slotStartMin env t with
  | some m => decide (slotAbs d m - env.bookingWindowMinutes ≤ now)
  | none => false

/-- Window check of cleanup phase 0 and admin_action, applied to a row. -/
def windowExpired (env : Env) (now : Int) (r : Reservation) : Bool :=
  deadlineHit env now r.date r.timeSlot

/-- Row matches (classroom, seat_row, seat_col, date, time_slot) and is
approved: the hard-lock queryset of views.py lines 419-423. -/
def isApprovedAt (cid row col d t : Nat) (r : Reservation) : Bool :=
  decide (r.classroomId = cid ∧ r.seatRow = row ∧ r.seatCol = col ∧
    r.date = d ∧ r.timeSlot = t ∧ r.status = RStatus.approved)

/-- The hard-lock existence test: an approved reservation for the seat. -/
def hasApprovedAt (s : State) (cid row col d t : Nat) : Bool :=
  s.any (isApprovedAt cid row col d t)

/-- Seat identity of a row. -/
def seatKey (r : Reservation) : Nat × Nat × Nat × Nat × Nat :=
  (r.classroomId, r.seatRow, r.seatCol, r.date, r.timeSlot)

/-- Number of approved rows in the state for one seat key. -/
def approvedCount (s : State) (k : Nat × Nat × Nat × Nat × Nat) : Nat :=
  s.countP fun r => decide (seatKey r = k ∧ r.status = RStatus.approved)

/-- Number of pending rows in the state for one seat key. -/
def pendingCount (s : State) (k : Nat × Nat × Nat × Nat × Nat) : Nat :=
  s.countP fun r => decide (seatKey r = k ∧ r.status = RStatus.pending)

/-- The hard-lock invariant: at most one approved reservation per seat key. -/
def AtMostOneApproved (s : State) : Prop :=
  ∀ k, approvedCount s k ≤ 1

/-- Row ids are pairwise distinct (database primary keys). -/
def UniqueIds (s : State) : Prop :=
  (s.map fun r => r.rid).Nodup

/-- Row with a given id. -/
def rowOf (s : State) (i : Nat) : Option Reservation :=
  s.find? fun r => decide (r.rid = i)

/-- Status of the row with a given id. -/
def statusOf (s : State) (i : Nat) : Option RStatus :=
  (rowOf s i).map fun r => r.status

/-- Overwrite the status of the row with a given id (res.save() after
res.status = ...). -/
def setStatus (s : State) (i : Nat) (st : RStatus) : State :=
  s.map fun r => if r.rid = i then { r with status := st } else r

/-- Request data of the submit view. -/
structure SubmitReq where
  studentRef : Nat
  role : Role
  cid : Nat
  date : Nat
  slot : Nat
  seats : List (Nat × Nat)
deriving DecidableEq, Repr

/-- The distinct error exits of submit, in source order. -/
inductive SubmitError
  | pastDate
  | tooFarAhead
  | deadlinePassed
  | noSeats
  | batchLimit
  | seatLimit
  | alreadyBooked
  | seatTaken (row col : Nat)
deriving DecidableEq, Repr

/-- Count of distinct batch_id values among the student's pending
reservations dated today or later (views.py lines 378-382). -/
def distinctPendingBatches (s : State) (stu : Nat) (today : Nat) : Nat :=
  ((s.filter fun r =>
      decide (r.studentId = stu ∧ r.status = RStatus.pending ∧ today ≤ r.date)).map
    fun r => r.batchId).dedup.length

/-- The student already holds a pending or approved reservation for the
date and slot (views.py lines 398-401). -/
def hasSlotBooking (s : State) (stu d t : Nat) : Bool :=
  s.any fun r => decide (r.studentId = stu ∧ r.date = d ∧ r.timeSlot = t ∧
    (r.status = RStatus.approved ∨ r.status = RStatus.pending))

/-- A fresh pending row as created inside the submit transaction
(views.py lines 428-433); created_at is auto_now_add. -/
def mkPendingRes (stu cid d t batch rid : Nat) (now : Int) (rc : Nat × Nat) :
    Reservation :=
  { rid := rid, batchId := batch, studentId := stu, classroomId := cid,
    seatRow := rc.1, seatCol := rc.2, date := d, timeSlot := t,
    status := RStatus.pending, createdAt := now, isAdminAction := false,
    cancelledSeatsInfo := [] }

/-- The transaction body of submit: walk the seat list, abort the whole
transaction (ValueError) as soon as a seat is hard-locked, otherwise
create one pending row per seat, all under one batch id
(views.py lines 414-435). -/
def createSeats (stu cid d t batch : Nat) (now : Int) (nextId : Nat)
    (s : State) : List (Nat × Nat) → Except SubmitError State
  | [] => Except.ok s
  | rc :: rest =>
    if hasApprovedAt s cid rc.1 rc.2 d t then
      Except.error (SubmitError.seatTaken rc.1 rc.2)
    else
      createSeats stu cid d t batch now (nextId + 1)
        (s ++ [mkPendingRes stu cid d t batch nextId now rc]) rest

/-- The submit view (views.py lines 309-473): date-range checks, booking
window check, empty-seat check, pending-batch cap (MAX_PENDING_BATCHES = 3),
normal-user restrictions, then the creation transaction.  An error leaves
the table untouched (the transaction is rolled back or never entered). -/
def submit (env : Env) (now : Int) (today : Nat) (s : State) (q : SubmitReq)
    (newBatch nextId : Nat) : Except SubmitError State :=
  let maxAhead := if q.role = Role.manager then env.maxAheadManager
    else env.maxAheadUser
  if q.date < today then Except.error SubmitError.pastDate
  else if today + maxAhead < q.date then Except.error SubmitError.tooFarAhead
  else if deadlineHit env now q.date q.slot then
    Except.error SubmitError.deadlinePassed
  else if q.seats.isEmpty then Except.error SubmitError.noSeats
  else if 3 ≤ distinctPendingBatches s q.studentRef today then
    Except.error SubmitError.batchLimit
  else if q.role = Role.user ∧ 1 < q.seats.length then
    Except.error SubmitError.seatLimit
  else if q.role = Role.user ∧
      hasSlotBooking s q.studentRef q.date q.slot = true then
    Except.error SubmitError.alreadyBooked
  else createSeats q.studentRef q.cid q.date q.slot newBatch now nextId s q.seats

/-- State of the table after a submit call: the new state on success, the
unchanged one after a rollback. -/
def resultState (s : State) : Except SubmitError State → State
  | Except.ok s' => s'
  | Except.error _ => s

/-- The list of rows a successful submit appends. -/
def createdRows (stu cid d t batch : Nat) (now : Int) (nextId : Nat) :
    List (Nat × Nat) → List Reservation
  | [] => []
  | rc :: rest =>
    mkPendingRes stu cid d t batch nextId now rc ::
      createdRows stu cid d t batch now (nextId + 1) rest

/-- Action carried by an admin mail link. -/
inductive AdminAct
  | approve
  | reject
deriving DecidableEq, Repr

/-- Reject every pending competitor of res for the same seat key, excluding
res itself (views.py lines 584-589). -/
def rejectCompetitors (s : State) (res : Reservation) : State :=
  s.map fun r =>
    if r.rid ≠ res.rid ∧ r.classroomId = res.classroomId ∧
        r.seatRow = res.seatRow ∧ r.seatCol = res.seatCol ∧
        r.date = res.date ∧ r.timeSlot = res.timeSlot ∧
        r.status = RStatus.pending then
      { r with status := RStatus.rejected }
    else r

/-- One approve iteration of the admin_action transaction (views.py lines
566-590): if the seat is already hard-locked the request is rejected,
otherwise it is approved and its pending competitors are rejected. -/
def approveStep (s : State) (i : Nat) : State :=
  match rowOf s i with
  | none => s
  | some res =>
    if hasApprovedAt s res.classroomId res.seatRow res.seatCol res.date
        res.timeSlot then
      setStatus s i RStatus.rejected
    else
      rejectCompetitors (setStatus s i RStatus.approved) res

/-- One reject iteration of the admin_action transaction (views.py lines
592-595). -/
def rejectStep (s : State) (i : Nat) : State :=
  setStatus s i RStatus.rejected

/-- Dispatch one admin_action transaction iteration on the action. -/
def actStep (act : AdminAct) (s : State) (i : Nat) : State :=
  match act with
  | AdminAct.approve => approveStep s i
  | AdminAct.reject => rejectStep s i

/-- The admin_action transaction loop over the valid reservation ids. -/
def actFold (act : AdminAct) (s : State) : List Nat → State
  | [] => s
  | i :: rest => actFold act (actStep act s i) rest

/-- State effect of the admin_action view on a signed link over ids
(views.py lines 496-604): select the still-pending targets, auto-expire
those whose operation deadline has passed (these saves persist even when
nothing remains to process), then run the approve or reject transaction
over the remaining valid ones. -/
def adminAction (env : Env) (now : Int) (s : State) (ids : List Nat)
    (act : AdminAct) : State :=
  let target := s.filter fun r =>
    decide (r.rid ∈ ids ∧ r.status = RStatus.pending)
  if target.isEmpty then s
  else
    let expiredIds : List Nat :=
      (target.filter fun r => windowExpired env now r).map fun r => r.rid
    let validIds : List Nat :=
      (target.filter fun r => !windowExpired env now r).map fun r => r.rid
    let s1 := s.map fun r =>
      if r.rid ∈ expiredIds then { r with status := RStatus.expired } else r
    actFold act s1 validIds

/-- One seat iteration of the admin booking transaction (views.py lines
751-779): skip the seat when it is hard-locked, otherwise reject all its
pending competitors and create an approved admin reservation. -/
def adminBookStep (cid d t stu batch : Nat) (now : Int) (acc : State × Nat)
    (rc : Nat × Nat) : State × Nat :=
  if hasApprovedAt acc.1 cid rc.1 rc.2 d t then acc
  else
    let s' := acc.1.map fun r =>
      if r.classroomId = cid ∧ r.seatRow = rc.1 ∧ r.seatCol = rc.2 ∧
          r.date = d ∧ r.timeSlot = t ∧ r.status = RStatus.pending then
        { r with status := RStatus.rejected }
      else r
    (s' ++ [{ rid := acc.2, batchId := batch, studentId := stu,
              classroomId := cid, seatRow := rc.1, seatCol := rc.2,
              date := d, timeSlot := t, status := RStatus.approved,
              createdAt := now, isAdminAction := true,
              cancelledSeatsInfo := [] }],
     acc.2 + 1)

/-- State effect of the POST branch of admin_booking_view (views.py lines
713-786): nothing happens when the booking window has closed or the target
student is blacklisted; otherwise each requested seat is processed in turn
under one fresh batch id. -/
def adminBook (env : Env) (now : Int) (s : State) (cid d t : Nat)
    (blacklisted : Bool) (stu : Nat) (seats : List (Nat × Nat))
    (batch nextId : Nat) : State :=
  if deadlineHit env now d t then s
  else if blacklisted then s
  else (seats.foldl (adminBookStep cid d t stu batch now) (s, nextId)).1

/-- Outcome reported by cancel_booking. -/
inductive CancelResult
  | noOp
  | deadlinePassed
  | done (n : Nat)
deriving DecidableEq, Repr

/-- Row belongs to the batch being cancelled by its owner and is still
pending or approved (views.py lines 1261-1265). -/
def inCancelBatch (stu batch : Nat) (r : Reservation) : Bool :=
  decide (r.batchId = batch ∧ r.studentId = stu ∧
    (r.status = RStatus.pending ∨ r.status = RStatus.approved))

/-- The cancel_booking view (views.py lines 1241-1305): over the student's
pending/approved rows of the batch, read the deadline off the first row;
past the deadline nothing changes, otherwise every such row becomes
cancelled with is_admin_action cleared. -/
def cancelBooking (env : Env) (now : Int) (s : State) (stu batch : Nat) :
    State × CancelResult :=
  let qs := s.filter (inCancelBatch stu batch)
  match qs.head? with
  | none => (s, CancelResult.noOp)
  | some first =>
    if deadlineHit env now first.date first.timeSlot then
      (s, CancelResult.deadlinePassed)
    else
      (s.map fun r =>
        if inCancelBatch stu batch r = true then
          { r with status := RStatus.cancelled, isAdminAction := false }
        else r,
       CancelResult.done qs.length)

/-- Phase 0 of the cleanup command (cleanup.py lines 16-41): pending rows
dated today or later whose operation deadline has passed become expired. -/
def cleanupPhase0 (env : Env) (now : Int) (today : Nat) (s : State) : State :=
  s.map fun r =>
    if r.status = RStatus.pending ∧ today ≤ r.date ∧
        windowExpired env now r = true then
      { r with status := RStatus.expired }
    else r

/-- Phase 1 of the cleanup command (cleanup.py lines 43-50): pending rows
created more than RESERVATION_TIMEOUT_HOURS ago become expired. -/
def cleanupPhase1 (env : Env) (now : Int) (s : State) : State :=
  s.map fun r =>
    if r.status = RStatus.pending ∧
        r.createdAt < now - env.timeoutHours * 60 then
      { r with status := RStatus.expired }
    else r

/-- Phase 2 of the cleanup command (cleanup.py lines 52-60): pending rows
dated RESERVATION_EXPIRE_DAYS or more days in the past become expired
(date at most today minus expire_days, stated additively). -/
def cleanupPhase2 (env : Env) (today : Nat) (s : State) : State :=
  s.map fun r =>
    if r.status = RStatus.pending ∧ r.date + env.expireDays ≤ today then
      { r with status := RStatus.expired }
    else r

/-- One run of the cleanup command (cleanup.py Command.handle). -/
def cleanupRun (env : Env) (now : Int) (today : Nat) (s : State) : State :=
  cleanupPhase2 env today (cleanupPhase1 env now (cleanupPhase0 env now today s))

/-- A pending row is stale for cleanup: operation deadline passed on a
current-or-future date, or created too long ago, or dated far enough in
the past. -/
def staleRow (env : Env) (now : Int) (today : Nat) (r : Reservation) : Prop :=
  (today ≤ r.date ∧ windowExpired env now r = true) ∨
    r.createdAt < now - env.timeoutHours * 60 ∨
    r.date + env.expireDays ≤ today

instance (env : Env) (now : Int) (today : Nat) (r : Reservation) :
    Decidable (staleRow env now today r) := by
  unfold staleRow; infer_instance

/-- The row transformation one cleanup run amounts to. -/
def cleanupMark (env : Env) (now : Int) (today : Nat) (r : Reservation) :
    Reservation :=
  if r.status = RStatus.pending ∧ staleRow env now today r then
    { r with status := RStatus.expired }
  else r

/-- One row of the AccessCode table (models.py lines 97-108); the triple
(classroom, date, time_slot) is unique_together. -/
structure AccessCode where
  classroomId : Nat
  date : Nat
  timeSlot : Nat
  code : Nat
  notified : Bool
deriving DecidableEq, Repr

/-- An access-code mail attempted by send_access_codes, keyed by recipient
student, classroom and slot (the date is always today). -/
structure CodeMail where
  studentId : Nat
  classroomId : Nat
  timeSlot : Nat
  code : Nat
deriving DecidableEq, Repr

/-- Row matches the (classroom, date, time_slot) triple of an access code. -/
def codeTriple (cls d t : Nat) (a : AccessCode) : Bool :=
  decide (a.classroomId = cls ∧ a.date = d ∧ a.timeSlot = t)

/-- At most one AccessCode row per triple (the unique_together constraint). -/
def AtMostOneCode (cs : List AccessCode) : Prop :=
  ∀ cls d t, (cs.countP (codeTriple cls d t)) ≤ 1

/-- Set notified on every code row of the triple (access_code_obj.save()
after access_code_obj.notified = True). -/
def markNotified (cs : List AccessCode) (cls d t : Nat) : List AccessCode :=
  cs.map fun a => if codeTriple cls d t a then { a with notified := true } else a

/-- Students with an approved reservation for the classroom, date and slot,
one entry each (send_access_codes.py lines 89-112 groups seats per
student before mailing). -/
def approvedStudents (resv : State) (cls d t : Nat) : List Nat :=
  ((resv.filter fun r => decide (r.classroomId = cls ∧ r.date = d ∧
      r.timeSlot = t ∧ r.status = RStatus.approved)).map
    fun r => r.studentId).dedup

/-- Accumulator of the send_access_codes run: the AccessCode table and the
mails attempted so far. -/
structure SendAcc where
  codes : List AccessCode
  mails : List CodeMail
deriving Repr

/-- Handling of one classroom inside the notification window
(send_access_codes.py lines 76-168): get_or_create the code row for
(classroom, today, slot) with a generated code, skip it when already
notified, otherwise mail the code to every student with an approved
reservation (a delivery failure is caught and ignored there) and mark the
row notified; a triple with no approved reservation is marked notified
without mail. -/
def processClassroom (resv : State) (today t : Nat) (codeOf : Nat → Nat → Nat)
    (acc : SendAcc) (cls : Nat) : SendAcc :=
  let found := acc.codes.find? (codeTriple cls today t)
  let codes1 := match found with
    | some _ => acc.codes
    | none => acc.codes ++
        [{ classroomId := cls, date := today, timeSlot := t,
           code := codeOf cls t, notified := false }]
  let obj : AccessCode := match found with
    | some a => a
    | none => { classroomId := cls, date := today, timeSlot := t,
                code := codeOf cls t, notified := false }
  if obj.notified then { acc with codes := codes1 }
  else
    { codes := markNotified codes1 cls today t,
      mails := acc.mails ++ (approvedStudents resv cls today t).map fun stu =>
        { studentId := stu, classroomId := cls, timeSlot := t,
          code := obj.code } }

/-- Whether now lies in the notification window of a slot that starts at
minute m of today: slot start minus ACCESS_CODE_NOTIFY_MINUTES inclusive up
to the start exclusive (send_access_codes.py lines 67-71). -/
def inNotifyWindow (env : Env) (now : Int) (today : Nat) (m : Int) : Bool :=
  decide (slotAbs today m - env.notifyMinutes ≤ now ∧ now < slotAbs today m)

/-- One TIME_SLOTS entry of the send_access_codes run: slots with no
parseable start are skipped, slots outside the window are skipped, and
otherwise every active classroom is processed. -/
def sendSlotStep (env : Env) (now : Int) (today : Nat) (resv : State)
    (classrooms : List Nat) (codeOf : Nat → Nat → Nat) (acc : SendAcc)
    (p : Nat × Option Int) : SendAcc :=
  match p.2 with
  | none => acc
  | some m =>
    if inNotifyWindow env now today m then
      classrooms.foldl (processClassroom resv today p.1 codeOf) acc
    else acc

/-- One (non-dry-run) run of the send_access_codes command
(send_access_codes.py Command.handle) over the TIME_SLOTS list; codeOf is
the oracle standing for generate_access_code. -/
def sendAccessCodes (env : Env) (now : Int) (today : Nat) (resv : State)
    (classrooms : List Nat) (codes : List AccessCode)
    (codeOf : Nat → Nat → Nat) : SendAcc :=
  env.slots.foldl (sendSlotStep env now today resv classrooms codeOf)
    { codes := codes, mails := [] }

/-- Accumulator of the per-student approved-cancellation loop of
admin_cancel_view: the table, the mail attempts (student, delivered), the
students for whom a failure flash was shown, and the id/batch counter for
the per-student summary rows. -/
structure AdminCancelAcc where
  state : State
  attempts : List (Nat × Bool)
  failFlash : List Nat
  k : Nat
deriving Repr

/-- Handling of one student's group of approved rows in admin_cancel_view
(views.py lines 964-1030): every row of the group becomes cancelled, one
summary row (status cancelled, is_admin_action, the seat list in
cancelled_seats_info, the remaining fields from the group's first row) is
created under a fresh batch id, and one notification mail is attempted;
when delivery fails the view catches the exception and flashes an error,
and the rows stay cancelled. -/
def cancelStudentStep (approvedList : State) (emailOk : Nat → Bool)
    (idBase batchBase : Nat) (now : Int) (acc : AdminCancelAcc) (stu : Nat) :
    AdminCancelAcc :=
  let group := approvedList.filter fun r => decide (r.studentId = stu)
  match group.head? with
  | none => acc
  | some first =>
    let rids : List Nat := group.map fun r => r.rid
    let s' := acc.state.map fun r =>
      if r.rid ∈ rids then { r with status := RStatus.cancelled } else r
    { state := s' ++
        [{ rid := idBase + acc.k, batchId := batchBase + acc.k,
           studentId := stu, classroomId := first.classroomId,
           seatRow := first.seatRow, seatCol := first.seatCol,
           date := first.date, timeSlot := first.timeSlot,
           status := RStatus.cancelled, createdAt := now,
           isAdminAction := true,
           cancelledSeatsInfo := group.map fun r => (r.seatRow, r.seatCol) }],
      attempts := acc.attempts ++ [(stu, emailOk stu)],
      failFlash := acc.failFlash ++ (if emailOk stu then [] else [stu]),
      k := acc.k + 1 }

/-- State and mail effect of the POST branch of admin_cancel_view
(views.py lines 897-1047): among the selected rows, pending ones have every
pending competitor of their seats cancelled; approved ones are processed
per student when the cancel window is still open (can_cancel), each group
then being cancelled, summarised and mailed as in cancelStudentStep. -/
def adminCancelPost (s : State) (ids : List Nat) (canCancel : Bool)
    (emailOk : Nat → Bool) (idBase batchBase : Nat) (now : Int) :
    AdminCancelAcc :=
  let toCancel := s.filter fun r => decide (r.rid ∈ ids ∧
    (r.status = RStatus.pending ∨ r.status = RStatus.approved))
  if toCancel.isEmpty then
    { state := s, attempts := [], failFlash := [], k := 0 }
  else
    let pendingKeys : List (Nat × Nat × Nat × Nat × Nat) :=
      ((toCancel.filter fun r => decide (r.status = RStatus.pending)).map
        seatKey).dedup
    let s1 := s.map fun r =>
      if seatKey r ∈ pendingKeys ∧ r.status = RStatus.pending then
        { r with status := RStatus.cancelled }
      else r
    let approvedList := if canCancel then
        toCancel.filter fun r => decide (r.status = RStatus.approved)
      else []
    let stus : List Nat := (approvedList.map fun r => r.studentId).dedup
    stus.foldl (cancelStudentStep approvedList emailOk idBase batchBase now)
      { state := s1, attempts := [], failFlash := [], k := 0 }

section ListHelpers

variable {α : Type}

/-- Counting under a map can only drop when the map reflects the predicate. -/
theorem countP_map_le_of_reflects {p : α → Bool} {f : α → α}
    (h : ∀ a, p (f a) = true → p a = true) (l : List α) :
    (l.map f).countP p ≤ l.countP p := by
  induction l with
  | nil => simp
  | cons a t ih =>
    by_cases hfa : p (f a) = true
    · rw [List.map_cons, List.countP_cons_of_pos _ _ hfa,
        List.countP_cons_of_pos _ _ (h a hfa)]
      omega
    · rw [List.map_cons, List.countP_cons_of_neg _ _ hfa]
      by_cases hpa : p a = true
      · rw [List.countP_cons_of_pos _ _ hpa]; omega
      · rw [List.countP_cons_of_neg _ _ hpa]; omega

/-- Counting is untouched by a map that preserves the predicate pointwise
on the list. -/
theorem countP_map_eq_of_mem {p : α → Bool} {f : α → α} {l : List α}
    (h : ∀ a ∈ l, p (f a) = p a) : (l.map f).countP p = l.countP p := by
  rw [List.countP_map]
  exact List.countP_congr fun a ha => by simp only [Function.comp_apply, h a ha]

/-- A map fixing every element of the list is the identity on it. -/
theorem map_eq_self_of_mem {f : α → α} {l : List α}
    (h : ∀ a ∈ l, f a = a) : l.map f = l := by
  induction l with
  | nil => rfl
  | cons a t ih =>
    simp only [List.map_cons, h a (List.mem_cons_self a t)]
    rw [ih fun a ha => h a (List.mem_cons_of_mem _ ha)]

/-- find? looks up the head of the filtered list. -/
theorem find?_eq_head?_filter (p : α → Bool) (l : List α) :
    l.find? p = (l.filter p).head? := by
  induction l with
  | nil => rfl
  | cons a t ih =>
    by_cases h : p a
    · simp [List.find?_cons, List.filter_cons, h]
    · simp only [List.find?_cons, List.filter_cons, h]
      simpa [h] using ih

/-- find? commutes with a map that preserves the predicate. -/
theorem find?_map_of_pres {q : α → Bool} {f : α → α}
    (h : ∀ a, q (f a) = q a) (l : List α) :
    (l.map f).find? q = (l.find? q).map f := by
  induction l with
  | nil => rfl
  | cons a t ih =>
    by_cases ha : q a
    · simp [List.find?_cons, h a, ha]
    · simp only [List.map_cons, List.find?_cons, h a]
      simpa [ha] using ih

end ListHelpers

/-- Row identity and every non-status column of a row (normalizing the
status lets two rows be compared up to status). -/
def rowShape (r : Reservation) : Reservation :=
  { r with status := RStatus.pending }

/-- Rows of one table are determined by their id. -/
theorem row_eq_of_rid_eq {s : State} (hu : UniqueIds s) {a b : Reservation}
    (ha : a ∈ s) (hb : b ∈ s) (hab : a.rid = b.rid) : a = b :=
  List.inj_on_of_nodup_map hu ha hb hab

/-- A found row is a member carrying the id. -/
theorem rowOf_spec {s : State} {i : Nat} {r : Reservation}
    (h : rowOf s i = some r) : r ∈ s ∧ r.rid = i := by
  refine ⟨List.mem_of_find?_eq_some h, ?_⟩
  have := List.find?_some h
  simpa using this

/-- rowOf commutes with an id-preserving row map. -/
theorem rowOf_map {f : Reservation → Reservation}
    (hf : ∀ r, (f r).rid = r.rid) (s : State) (i : Nat) :
    rowOf (s.map f) i = (rowOf s i).map f := by
  unfold rowOf
  exact find?_map_of_pres (fun r => by rw [hf r]) s

/-- Splitting the table at a row id, with uniqueness pushing the id out of
both sides. -/
theorem rowOf_decomp {s : State} (hu : UniqueIds s) {i : Nat}
    {res : Reservation} (h : rowOf s i = some res) :
    ∃ u v, s = u ++ res :: v ∧ (∀ r ∈ u, r.rid ≠ i) ∧ ∀ r ∈ v, r.rid ≠ i := by
  obtain ⟨hmem, hrid⟩ := rowOf_spec h
  obtain ⟨u, v, hs⟩ := List.append_of_mem hmem
  subst hs
  have hnd : ((u ++ res :: v).map fun r => r.rid).Nodup := hu
  rw [List.map_append, List.map_cons] at hnd
  rcases List.nodup_append.mp hnd with ⟨-, h2, hdisj⟩
  refine ⟨u, v, rfl, ?_, ?_⟩
  · intro r hr hri
    have hre : r = res := row_eq_of_rid_eq hu (List.mem_append_left _ hr)
      (List.mem_append_right _ (List.mem_cons_self _ _)) (by rw [hri, hrid])
    exact hdisj (List.mem_map_of_mem _ hr)
      (by rw [hre]; exact List.mem_cons_self _ _)
  · intro r hr hri
    have hre : r = res := row_eq_of_rid_eq hu
      (List.mem_append_right _ (List.mem_cons_of_mem _ hr))
      (List.mem_append_right _ (List.mem_cons_self _ _)) (by rw [hri, hrid])
    exact (List.nodup_cons.mp h2).1
      (by rw [← hre]; exact List.mem_map_of_mem _ hr)

/-- Errors of the submit transaction body are always seat conflicts. -/
theorem createSeats_error_shape {stu cid d t batch : Nat} {now : Int}
    {nid : Nat} {s : State} {seats : List (Nat × Nat)} {e : SubmitError}
    (h : createSeats stu cid d t batch now nid s seats = Except.error e) :
    ∃ rr cc, e = SubmitError.seatTaken rr cc := by
  induction seats generalizing s nid with
  | nil => simp [createSeats] at h
  | cons rc rest ih =>
    unfold createSeats at h
    by_cases hl : hasApprovedAt s cid rc.1 rc.2 d t = true
    · rw [if_pos hl] at h
      exact ⟨rc.1, rc.2, (Except.error.injEq _ _).mp h.symm⟩
    · rw [if_neg hl] at h
      exact ih h

/-- A successful submit transaction appends exactly the created rows. -/
theorem createSeats_ok_shape {stu cid d t batch : Nat} {now : Int}
    {nid : Nat} {s s' : State} {seats : List (Nat × Nat)}
    (h : createSeats stu cid d t batch now nid s seats = Except.ok s') :
    s' = s ++ createdRows stu cid d t batch now nid seats := by
  induction seats generalizing s nid with
  | nil =>
    simp only [createSeats] at h
    simp [createdRows, (Except.ok.injEq _ _).mp h]
  | cons rc rest ih =>
    unfold createSeats at h
    by_cases hl : hasApprovedAt s cid rc.1 rc.2 d t = true
    · rw [if_pos hl] at h; cases h
    · rw [if_neg hl] at h
      rw [ih h, createdRows, List.append_assoc]
      rfl

/-- Every created row is pending and carries the shared fresh batch id. -/
theorem createdRows_fields (stu cid d t batch : Nat) (now : Int) (nid : Nat)
    (seats : List (Nat × Nat)) :
    ∀ row ∈ createdRows stu cid d t batch now nid seats,
      row.status = RStatus.pending ∧ row.batchId = batch := by
  induction seats generalizing nid with
  | nil => simp [createdRows]
  | cons rc rest ih =>
    intro row hrow
    rcases List.mem_cons.mp hrow with h | h
    · subst h; exact ⟨rfl, rfl⟩
    · exact ih _ _ h

/-- One row is created per requested seat. -/
theorem createdRows_length (stu cid d t batch : Nat) (now : Int) (nid : Nat)
    (seats : List (Nat × Nat)) :
    (createdRows stu cid d t batch now nid seats).length = seats.length := by
  induction seats generalizing nid with
  | nil => rfl
  | cons rc rest ih => simp [createdRows, ih]

/-- Appending a non-approved row does not create a hard lock. -/
theorem hasApprovedAt_append_single {s : State} {r' : Reservation}
    (h : r'.status ≠ RStatus.approved) (cid row col d t : Nat) :
    hasApprovedAt (s ++ [r']) cid row col d t = hasApprovedAt s cid row col d t := by
  unfold hasApprovedAt
  rw [List.any_append]
  have : isApprovedAt cid row col d t r' = false := by
    simp [isApprovedAt]
    intro _ _ _ _ _
    exact h
  simp [this]

/-- A hard-locked seat in the request aborts the submit transaction. -/
theorem createSeats_blocked {stu cid d t batch : Nat} {now : Int}
    {nid : Nat} {s : State} {seats : List (Nat × Nat)}
    (h : ∃ rc ∈ seats, hasApprovedAt s cid rc.1 rc.2 d t = true) :
    ∃ e, createSeats stu cid d t batch now nid s seats = Except.error e := by
  induction seats generalizing s nid with
  | nil => obtain ⟨rc, hrc, -⟩ := h; cases hrc
  | cons rc0 rest ih =>
    unfold createSeats
    by_cases hl : hasApprovedAt s cid rc0.1 rc0.2 d t = true
    · rw [if_pos hl]; exact ⟨_, rfl⟩
    · rw [if_neg hl]
      obtain ⟨rc, hrc, htaken⟩ := h
      rcases List.mem_cons.mp hrc with heq | hmem
      · subst heq; exact absurd htaken hl
      · refine ih ⟨rc, hmem, ?_⟩
        rw [hasApprovedAt_append_single (by simp [mkPendingRes]) cid rc.1 rc.2 d t]
        exact htaken

/-- C3: Batch submission is all-or-nothing and shares one identifier: a
successful submit appends exactly one pending row per requested seat, all
under the same fresh batch id; when any requested seat is hard-locked
(an approved reservation exists for it), submit raises an error and, the
transaction being rolled back, the table is unchanged. -/
theorem res_C3 (env : Env) (now : Int) (today : Nat) (s : State)
    (q : SubmitReq) (newBatch nextId : Nat) :
    (∀ s', submit env now today s q newBatch nextId = Except.ok s' →
      s' = s ++ createdRows q.studentRef q.cid q.date q.slot newBatch now
        nextId q.seats ∧
      (createdRows q.studentRef q.cid q.date q.slot newBatch now nextId
        q.seats).length = q.seats.length ∧
      ∀ row ∈ createdRows q.studentRef q.cid q.date q.slot newBatch now
        nextId q.seats,
        row.status = RStatus.pending ∧ row.batchId = newBatch) ∧
    ((∃ rc ∈ q.seats, hasApprovedAt s q.cid rc.1 rc.2 q.date q.slot = true) →
      (∃ e, submit env now today s q newBatch nextId = Except.error e) ∧
      resultState s (submit env now today s q newBatch nextId) = s) := by
  constructor
  · intro s' hok
    simp only [submit] at hok
    split_ifs at hok <;> first
      | exact absurd hok (by simp)
      | exact ⟨createSeats_ok_shape hok, createdRows_length _ _ _ _ _ _ _ _,
          createdRows_fields _ _ _ _ _ _ _ _⟩
  · intro hblocked
    have herr : ∃ e, submit env now today s q newBatch nextId =
        Except.error e := by
      simp only [submit]
      split_ifs <;> first
        | exact ⟨_, rfl⟩
        | exact createSeats_blocked hblocked
    obtain ⟨e, he⟩ := herr
    exact ⟨⟨e, he⟩, by rw [he]; rfl⟩

/-- C4: Booking window: when the slot has a parseable start time, a submit
at or after the start minus RESERVATION_BOOKING_WINDOW_MINUTES is refused
with some error (so nothing is created), and a submit strictly before that
deadline is never refused on time-window grounds. -/
theorem res_C4 (env : Env) (now : Int) (today : Nat) (s : State)
    (q : SubmitReq) (newBatch nextId : Nat) (m : Int)
    (hm : slotStartMin env q.slot = some m) :
    (slotAbs q.date m - env.bookingWindowMinutes ≤ now →
      ∃ e, submit env now today s q newBatch nextId = Except.error e) ∧
    (now < slotAbs q.date m - env.bookingWindowMinutes →
      submit env now today s q newBatch nextId ≠
        Except.error SubmitError.deadlinePassed) := by
  have hd : deadlineHit env now q.date q.slot =
      decide (slotAbs q.date m - env.bookingWindowMinutes ≤ now) := by
    unfold deadlineHit; rw [hm]
  constructor
  · intro hle
    have hdt : deadlineHit env now q.date q.slot = true := by
      rw [hd]; exact decide_eq_true hle
    simp only [submit]
    split_ifs <;> exact ⟨_, rfl⟩
  · intro hlt
    have hdf : ¬ deadlineHit env now q.date q.slot = true := by
      rw [hd]; simp; omega
    simp only [submit]
    split_ifs <;> first
      | exact fun hcontra => by
          obtain ⟨rr, cc, he⟩ := createSeats_error_shape hcontra; cases he
      | exact absurd (by assumption) hdf
      | simp

/-- C9: Pending-batch limit: a student already holding 3 or more distinct
pending batch ids dated today or later always gets an error from submit
and nothing is created; below 3, submit never fails with the batch-limit
error (the limit counts batches, not seats). -/
theorem res_C9 (env : Env) (now : Int) (today : Nat) (s : State)
    (q : SubmitReq) (newBatch nextId : Nat) :
    (3 ≤ distinctPendingBatches s q.studentRef today →
      (∃ e, submit env now today s q newBatch nextId = Except.error e) ∧
      resultState s (submit env now today s q newBatch nextId) = s) ∧
    (distinctPendingBatches s q.studentRef today < 3 →
      submit env now today s q newBatch nextId ≠
        Except.error SubmitError.batchLimit) := by
  constructor
  · intro hcnt
    have herr : ∃ e, submit env now today s q newBatch nextId =
        Except.error e := by
      simp only [submit]
      split_ifs <;> exact ⟨_, rfl⟩
    obtain ⟨e, he⟩ := herr
    exact ⟨⟨e, he⟩, by rw [he]; rfl⟩
  · intro hlt
    have hno : ¬ 3 ≤ distinctPendingBatches s q.studentRef today := by omega
    simp only [submit]
    split_ifs <;> first
      | exact fun hcontra => by
          obtain ⟨rr, cc, he⟩ := createSeats_error_shape hcontra; cases he
      | exact absurd (by assumption) hno
      | simp

/-- C10: Normal-user restrictions: a user-role student requesting more than
one seat, or already holding a pending or approved reservation for the
same date and slot, always gets an error from submit; a manager-role
student is never refused with either of those two errors. -/
theorem res_C10 (env : Env) (now : Int) (today : Nat) (s : State)
    (q : SubmitReq) (newBatch nextId : Nat) :
    (q.role = Role.user → 1 < q.seats.length →
      ∃ e, submit env now today s q newBatch nextId = Except.error e) ∧
    (q.role = Role.user →
      hasSlotBooking s q.studentRef q.date q.slot = true →
      ∃ e, submit env now today s q newBatch nextId = Except.error e) ∧
    (q.role = Role.manager →
      submit env now today s q newBatch nextId ≠
        Except.error SubmitError.seatLimit ∧
      submit env now today s q newBatch nextId ≠
        Except.error SubmitError.alreadyBooked) := by
  refine ⟨?_, ?_, ?_⟩
  · intro hrole hlen
    have hc : q.role = Role.user ∧ 1 < q.seats.length := ⟨hrole, hlen⟩
    simp only [submit]
    split_ifs <;> first
      | exact ⟨_, rfl⟩
      | exact absurd hc (by assumption)
  · intro hrole hbk
    have hc : q.role = Role.user ∧
        hasSlotBooking s q.studentRef q.date q.slot = true := ⟨hrole, hbk⟩
    simp only [submit]
    split_ifs <;> first
      | exact ⟨_, rfl⟩
      | exact absurd hc (by assumption)
  · intro hrole
    constructor <;>
      · simp only [submit]
        split_ifs <;> first
          | exact fun hcontra => by
              obtain ⟨rr, cc, he⟩ := createSeats_error_shape hcontra; cases he
          | exact absurd (by assumption :
              q.role = Role.user ∧ _).1 (by rw [hrole]; simp)
          | simp

/-- One cleanup run over a single row performs exactly the stale-pending
marking. -/
theorem cleanupRun_singleton (env : Env) (now : Int) (today : Nat)
    (r : Reservation) :
    cleanupRun env now today [r] = [cleanupMark env now today r] := by
  simp only [cleanupRun, cleanupPhase0, cleanupPhase1, cleanupPhase2,
    List.map_cons, List.map_nil, cleanupMark]
  by_cases h0 : r.status = RStatus.pending ∧ today ≤ r.date ∧
      windowExpired env now r = true
  · rw [if_pos h0, if_neg (by simp), if_neg (by simp),
      if_pos ⟨h0.1, Or.inl ⟨h0.2.1, h0.2.2⟩⟩]
  · rw [if_neg h0]
    by_cases h1 : r.status = RStatus.pending ∧
        r.createdAt < now - env.timeoutHours * 60
    · rw [if_pos h1, if_neg (by simp), if_pos ⟨h1.1, Or.inr (Or.inl h1.2)⟩]
    · rw [if_neg h1]
      by_cases h2 : r.status = RStatus.pending ∧ r.date + env.expireDays ≤ today
      · rw [if_pos h2, if_pos ⟨h2.1, Or.inr (Or.inr h2.2)⟩]
      · rw [if_neg h2, if_neg ?_]
        rintro ⟨hp, hst⟩
        rcases hst with ⟨ha, hb⟩ | hc | hd
        · exact h0 ⟨hp, ha, hb⟩
        · exact h1 ⟨hp, hc⟩
        · exact h2 ⟨hp, hd⟩

/-- A cleanup run distributes over a cons of the table. -/
theorem cleanupRun_cons (env : Env) (now : Int) (today : Nat)
    (r : Reservation) (t : State) :
    cleanupRun env now today (r :: t) =
      cleanupRun env now today [r] ++ cleanupRun env now today t := by
  simp [cleanupRun, cleanupPhase0, cleanupPhase1, cleanupPhase2]

/-- C6: Cleanup expires exactly the stale pending reservations: one run
rewrites the table row by row, turning a pending row into an expired one
precisely when it is stale, today-or-later with its operation deadline
passed, created more than RESERVATION_TIMEOUT_HOURS ago, or dated
RESERVATION_EXPIRE_DAYS or more in the past, and touching nothing else;
afterwards no stale pending row remains. -/
theorem res_C6 (env : Env) (now : Int) (today : Nat) (s : State) :
    cleanupRun env now today s = s.map (cleanupMark env now today) ∧
    ∀ r ∈ cleanupRun env now today s,
      ¬(r.status = RStatus.pending ∧ staleRow env now today r) := by
  have hmap : cleanupRun env now today s = s.map (cleanupMark env now today) := by
    induction s with
    | nil => rfl
    | cons r t ih =>
      rw [cleanupRun_cons, cleanupRun_singleton, ih, List.map_cons]
      rfl
  refine ⟨hmap, ?_⟩
  intro r hr
  rw [hmap] at hr
  obtain ⟨r0, -, hr0⟩ := List.mem_map.mp hr
  subst hr0
  by_cases hc : r0.status = RStatus.pending ∧ staleRow env now today r0
  · rw [cleanupMark, if_pos hc]
    rintro ⟨hp, -⟩
    cases hp
  · rw [cleanupMark, if_neg hc]
    exact hc

/-- C5: Cancellation window and atomicity: over a batch of the student
that still holds pending or approved rows, with the deadline read off the
batch's first such row, a cancel strictly before the slot start minus the
configured window cancels every such row and clears its admin flag, while
a cancel at or after the deadline reports the error and changes nothing. -/
theorem res_C5 (env : Env) (now : Int) (s : State) (stu batch : Nat)
    (first : Reservation) (m : Int)
    (hq : (s.filter (inCancelBatch stu batch)).head? = some first)
    (hm : slotStartMin env first.timeSlot = some m) :
    (now < slotAbs first.date m - env.bookingWindowMinutes →
      cancelBooking env now s stu batch =
        (s.map fun r => if inCancelBatch stu batch r = true then
            { r with status := RStatus.cancelled, isAdminAction := false }
          else r,
         CancelResult.done (s.filter (inCancelBatch stu batch)).length)) ∧
    (slotAbs first.date m - env.bookingWindowMinutes ≤ now →
      cancelBooking env now s stu batch = (s, CancelResult.deadlinePassed)) := by
  have hd : deadlineHit env now first.date first.timeSlot =
      decide (slotAbs first.date m - env.bookingWindowMinutes ≤ now) := by
    unfold deadlineHit; rw [hm]
  constructor
  · intro hlt
    have hdf : ¬ deadlineHit env now first.date first.timeSlot = true := by
      rw [hd]; simp; omega
    simp only [cancelBooking, hq]
    rw [if_neg hdf]
  · intro hle
    have hdt : deadlineHit env now first.date first.timeSlot = true := by
      rw [hd]; exact decide_eq_true hle
    simp only [cancelBooking, hq]
    rw [if_pos hdt]

/-- A small concrete environment: one slot (id 1) starting at minute 480 of
the day (08:00), with the default settings values. -/
def env0 : Env :=
  { slots := [(1, some 480)], bookingWindowMinutes := 30, timeoutHours := 24,
    expireDays := 1, notifyMinutes := 15, maxAheadUser := 2,
    maxAheadManager := 7 }

/-- A concrete pending reservation row used by the witnesses. -/
def r5 : Reservation :=
  { rid := 1, batchId := 9, studentId := 7, classroomId := 1, seatRow := 0,
    seatCol := 0, date := 0, timeSlot := 1, status := RStatus.pending,
    createdAt := 0, isAdminAction := true, cancelledSeatsInfo := [] }

/-- Witness for res_C4 at a concrete input: at minute 450 (the deadline of
the 08:00 slot under a 30-minute window) the submit is refused. -/
theorem res_C4_witness :
    ∃ e, submit env0 450 0 [] ⟨7, Role.user, 1, 0, 1, [(0, 0)]⟩ 5 10 =
      Except.error e :=
  (res_C4 env0 450 0 [] ⟨7, Role.user, 1, 0, 1, [(0, 0)]⟩ 5 10 480
    (by rfl)).1 (by decide)

/-- Witness for res_C5 at a concrete input: before the deadline the batch
of row r5 is cancelled with its admin flag cleared. -/
theorem res_C5_witness :
    cancelBooking env0 0 [r5] 7 9 =
      ([r5].map fun r => if inCancelBatch 7 9 r = true then
          { r with status := RStatus.cancelled, isAdminAction := false }
        else r,
       CancelResult.done ([r5].filter (inCancelBatch 7 9)).length) :=
  (res_C5 env0 0 [r5] 7 9 r5 480 (by rfl) (by rfl)).1 (by decide)

/-- Mail attempts and failure flashes of the per-student cancellation loop:
one attempt per processed student, one flash per failed delivery. -/
theorem cancelFold_mails (AL : State) (emailOk : Nat → Bool)
    (idBase batchBase : Nat) (now : Int) (sts : List Nat)
    (acc : AdminCancelAcc)
    (hgrp : ∀ st ∈ sts, AL.filter (fun r => decide (r.studentId = st)) ≠ []) :
    (sts.foldl (cancelStudentStep AL emailOk idBase batchBase now) acc).attempts
      = acc.attempts ++ sts.map (fun st => (st, emailOk st)) ∧
    (sts.foldl (cancelStudentStep AL emailOk idBase batchBase now) acc).failFlash
      = acc.failFlash ++ sts.filter (fun st => !emailOk st) := by
  induction sts generalizing acc with
  | nil => simp
  | cons st rest ih =>
    have hne := hgrp st (List.mem_cons_self _ _)
    obtain ⟨first, hfirst⟩ : ∃ f,
        (AL.filter fun r => decide (r.studentId = st)).head? = some f := by
      cases hcase : AL.filter fun r => decide (r.studentId = st) with
      | nil => exact absurd hcase hne
      | cons a t => exact ⟨a, rfl⟩
    have hstep : cancelStudentStep AL emailOk idBase batchBase now acc st =
        { state := (acc.state.map fun r =>
            if r.rid ∈ ((AL.filter fun r => decide (r.studentId = st)).map
                fun r => r.rid) then
              { r with status := RStatus.cancelled }
            else r) ++
            [{ rid := idBase + acc.k, batchId := batchBase + acc.k,
               studentId := st, classroomId := first.classroomId,
               seatRow := first.seatRow, seatCol := first.seatCol,
               date := first.date, timeSlot := first.timeSlot,
               status := RStatus.cancelled, createdAt := now,
               isAdminAction := true,
               cancelledSeatsInfo :=
                 (AL.filter fun r => decide (r.studentId = st)).map
                   fun r => (r.seatRow, r.seatCol) }],
          attempts := acc.attempts ++ [(st, emailOk st)],
          failFlash := acc.failFlash ++ (if emailOk st then [] else [st]),
          k := acc.k + 1 } := by
      simp only [cancelStudentStep, hfirst]
    rw [List.foldl_cons, hstep]
    obtain ⟨iha, ihf⟩ := ih _ fun x hx => hgrp x (List.mem_cons_of_mem _ hx)
    refine ⟨by rw [iha]; simp, by rw [ihf]; by_cases he : emailOk st <;> simp [he]⟩

/-- A cancelled row stays cancelled through one per-student step. -/
theorem cancelStudentStep_persist (AL : State) (emailOk : Nat → Bool)
    (idBase batchBase : Nat) (now : Int) (st : Nat) (acc : AdminCancelAcc)
    (i : Nat) (h : statusOf acc.state i = some RStatus.cancelled) :
    statusOf
      (cancelStudentStep AL emailOk idBase batchBase now acc st).state i =
      some RStatus.cancelled := by
  rcases hg : (AL.filter fun r => decide (r.studentId = st)).head? with - | first
  · simp only [cancelStudentStep, hg]; exact h
  · simp only [cancelStudentStep, hg]
    unfold statusOf at h ⊢
    obtain ⟨r, hr, hrs⟩ := Option.map_eq_some'.mp h
    unfold rowOf at hr ⊢
    rw [List.find?_append]
    have hmap := find?_map_of_pres (q := fun r => decide (r.rid = i))
      (f := fun r =>
        if r.rid ∈ ((AL.filter fun r => decide (r.studentId = st)).map
            fun r => r.rid) then { r with status := RStatus.cancelled } else r)
      (fun r => by by_cases hc : r.rid ∈ ((AL.filter fun r =>
        decide (r.studentId = st)).map fun r => r.rid) <;> simp [hc])
      acc.state
    rw [hmap, hr]
    by_cases hc : r.rid ∈ ((AL.filter fun r =>
        decide (r.studentId = st)).map fun r => r.rid) <;>
      simp [hc, hrs]

/-- A cancelled row stays cancelled through the whole per-student loop. -/
theorem cancelFold_persist (AL : State) (emailOk : Nat → Bool)
    (idBase batchBase : Nat) (now : Int) (sts : List Nat)
    (acc : AdminCancelAcc) (i : Nat)
    (h : statusOf acc.state i = some RStatus.cancelled) :
    statusOf
      ((sts.foldl (cancelStudentStep AL emailOk idBase batchBase now)
        acc)).state i = some RStatus.cancelled := by
  induction sts generalizing acc with
  | nil => exact h
  | cons st rest ih =>
    exact ih _ (cancelStudentStep_persist AL emailOk idBase batchBase now st
      acc i h)

/-- The step of a student's own group cancels every row of the group. -/
theorem cancelStudentStep_cancels (AL : State) (emailOk : Nat → Bool)
    (idBase batchBase : Nat) (now : Int) (st : Nat) (acc : AdminCancelAcc)
    (i : Nat)
    (hi : i ∈ (AL.filter fun r => decide (r.studentId = st)).map
      fun r => r.rid)
    (hsome : (rowOf acc.state i).isSome = true) :
    statusOf
      (cancelStudentStep AL emailOk idBase batchBase now acc st).state i =
      some RStatus.cancelled := by
  obtain ⟨first, hfirst⟩ : ∃ f,
      (AL.filter fun r => decide (r.studentId = st)).head? = some f := by
    cases hcase : AL.filter fun r => decide (r.studentId = st) with
    | nil => rw [hcase] at hi; cases hi
    | cons a t => exact ⟨a, rfl⟩
  simp only [cancelStudentStep, hfirst]
  obtain ⟨r, hr⟩ := Option.isSome_iff_exists.mp hsome
  have hrid : r.rid = i := (rowOf_spec hr).2
  unfold statusOf rowOf
  rw [List.find?_append]
  have hmap := find?_map_of_pres (q := fun r => decide (r.rid = i))
    (f := fun r =>
      if r.rid ∈ ((AL.filter fun r => decide (r.studentId = st)).map
          fun r => r.rid) then { r with status := RStatus.cancelled } else r)
    (fun r => by by_cases hc : r.rid ∈ ((AL.filter fun r =>
      decide (r.studentId = st)).map fun r => r.rid) <;> simp [hc])
    acc.state
  unfold rowOf at hr hmap
  rw [hmap, hr]
  have hmem : r.rid ∈ ((AL.filter fun r => decide (r.studentId = st)).map
      fun r => r.rid) := by rw [hrid]; exact hi
  simp [hmem]

/-- A present row stays present through one per-student step. -/
theorem cancelStudentStep_some (AL : State) (emailOk : Nat → Bool)
    (idBase batchBase : Nat) (now : Int) (st : Nat) (acc : AdminCancelAcc)
    (i : Nat) (hsome : (rowOf acc.state i).isSome = true) :
    (rowOf
      (cancelStudentStep AL emailOk idBase batchBase now acc st).state
      i).isSome = true := by
  rcases hg : (AL.filter fun r => decide (r.studentId = st)).head? with - | first
  · simp only [cancelStudentStep, hg]; exact hsome
  · simp only [cancelStudentStep, hg]
    obtain ⟨r, hr⟩ := Option.isSome_iff_exists.mp hsome
    unfold rowOf at hr ⊢
    rw [List.find?_append]
    have hmap := find?_map_of_pres (q := fun r => decide (r.rid = i))
      (f := fun r =>
        if r.rid ∈ ((AL.filter fun r => decide (r.studentId = st)).map
            fun r => r.rid) then { r with status := RStatus.cancelled } else r)
      (fun r => by by_cases hc : r.rid ∈ ((AL.filter fun r =>
        decide (r.studentId = st)).map fun r => r.rid) <;> simp [hc])
      acc.state
    rw [hmap, hr]
    simp

/-- A present row stays present through a prefix of the loop. -/
theorem cancelFold_some (AL : State) (emailOk : Nat → Bool)
    (idBase batchBase : Nat) (now : Int) (sts : List Nat)
    (acc : AdminCancelAcc) (i : Nat)
    (hsome : (rowOf acc.state i).isSome = true) :
    (rowOf
      ((sts.foldl (cancelStudentStep AL emailOk idBase batchBase now)
        acc)).state i).isSome = true := by
  induction sts generalizing acc with
  | nil => exact hsome
  | cons st rest ih =>
    exact ih _ (cancelStudentStep_some AL emailOk idBase batchBase now st acc
      i hsome)

/-- Counting occurrences of a member of a duplicate-free list of ids. -/
theorem countP_eq_one_of_nodup {l : List Nat} (hn : l.Nodup) {a : Nat}
    (ha : a ∈ l) : l.countP (fun x => decide (x = a)) = 1 := by
  have h1 : l.count a = 1 := List.count_eq_one_of_mem hn ha
  have h2 : l.count a = l.countP (fun x => x == a) := rfl
  rw [h2] at h1
  rw [← h1]
  exact List.countP_congr fun x _ => by simp

/-- C8 (amended): when the cancellation notification of admin_cancel_view
fails for a student, the delivery was attempted exactly once (no retry),
the failure is flashed to the admin, and the approved rows of that student
selected for cancellation are (and remain) cancelled, not rolled back. -/
theorem res_C8 (s : State) (ids : List Nat) (emailOk : Nat → Bool)
    (idBase batchBase : Nat) (now : Int) (stu : Nat)
    (hfail : (stu, false) ∈
      (adminCancelPost s ids true emailOk idBase batchBase now).attempts) :
    emailOk stu = false ∧
    stu ∈ (adminCancelPost s ids true emailOk idBase batchBase now).failFlash ∧
    (adminCancelPost s ids true emailOk idBase batchBase
      now).attempts.countP (fun a => decide (a.1 = stu)) = 1 ∧
    ∀ r ∈ s, r.rid ∈ ids → r.status = RStatus.approved →
      r.studentId = stu →
      statusOf (adminCancelPost s ids true emailOk idBase batchBase
        now).state r.rid = some RStatus.cancelled := by
  by_cases hne : (s.filter fun r => decide (r.rid ∈ ids ∧
      (r.status = RStatus.pending ∨ r.status = RStatus.approved))).isEmpty = true
  · rw [adminCancelPost, if_pos hne] at hfail
    cases hfail
  · have hout : adminCancelPost s ids true emailOk idBase batchBase now =
        ((((s.filter fun r => decide (r.rid ∈ ids ∧
            (r.status = RStatus.pending ∨
             r.status = RStatus.approved))).filter fun r =>
              decide (r.status = RStatus.approved)).map fun r =>
              r.studentId).dedup.foldl
          (cancelStudentStep ((s.filter fun r => decide (r.rid ∈ ids ∧
            (r.status = RStatus.pending ∨
             r.status = RStatus.approved))).filter fun r =>
              decide (r.status = RStatus.approved)) emailOk idBase batchBase
            now)
          { state := s.map fun r =>
              if seatKey r ∈ (((s.filter fun r => decide (r.rid ∈ ids ∧
                  (r.status = RStatus.pending ∨
                   r.status = RStatus.approved))).filter fun r =>
                    decide (r.status = RStatus.pending)).map seatKey).dedup ∧
                  r.status = RStatus.pending then
                { r with status := RStatus.cancelled }
              else r,
            attempts := [], failFlash := [], k := 0 }) := by
      rw [adminCancelPost, if_neg hne]; rfl
    rw [hout] at hfail ⊢
    set T : State := s.filter fun r => decide (r.rid ∈ ids ∧
      (r.status = RStatus.pending ∨ r.status = RStatus.approved)) with hT
    set AL : State := T.filter fun r => decide (r.status = RStatus.approved)
      with hAL
    set stus : List Nat := (AL.map fun r => r.studentId).dedup with hstus
    set acc0 : AdminCancelAcc :=
      { state := s.map fun r =>
          if seatKey r ∈ ((T.filter fun r =>
              decide (r.status = RStatus.pending)).map seatKey).dedup ∧
              r.status = RStatus.pending then
            { r with status := RStatus.cancelled }
          else r,
        attempts := [], failFlash := [], k := 0 } with hacc0
    have hgrp : ∀ st ∈ stus, AL.filter
        (fun r => decide (r.studentId = st)) ≠ [] := by
      intro st hst
      rw [hstus] at hst
      obtain ⟨r, hrAL, hrst⟩ := List.mem_map.mp (List.mem_dedup.mp hst)
      exact List.ne_nil_of_mem
        (List.mem_filter.mpr ⟨hrAL, by simp [hrst]⟩)
    obtain ⟨hatt, hflash⟩ := cancelFold_mails AL emailOk idBase batchBase now
      stus acc0 hgrp
    rw [hatt] at hfail
    simp only [List.nil_append] at hfail
    obtain ⟨st, hstmem, hsteq⟩ := List.mem_map.mp hfail
    obtain ⟨hst1, hst2⟩ := Prod.mk.inj hsteq
    have hstu : stu ∈ stus := hst1 ▸ hstmem
    have hok : emailOk stu = false := hst1 ▸ hst2
    refine ⟨hok, ?_, ?_, ?_⟩
    · rw [hflash]
      simp only [List.nil_append]
      exact List.mem_filter.mpr ⟨hstu, by simp [hok]⟩
    · rw [hatt]
      simp only [List.nil_append, List.countP_map]
      have : ((fun a : Nat × Bool => decide (a.1 = stu)) ∘
          fun st => (st, emailOk st)) = fun x => decide (x = stu) := rfl
      rw [this]
      exact countP_eq_one_of_nodup (List.nodup_dedup _) hstu
    · intro r hrs hrid hrap hrstu
      have hrT : r ∈ T := by
        rw [hT]
        exact List.mem_filter.mpr ⟨hrs, by simp [hrid, hrap]⟩
      have hrAL : r ∈ AL := by
        rw [hAL]
        exact List.mem_filter.mpr ⟨hrT, by simp [hrap]⟩
      have hrg : r ∈ AL.filter fun x => decide (x.studentId = stu) :=
        List.mem_filter.mpr ⟨hrAL, by simp [hrstu]⟩
      have hi : r.rid ∈ (AL.filter fun x =>
          decide (x.studentId = stu)).map fun x => x.rid :=
        List.mem_map_of_mem _ hrg
      have hsome0 : (rowOf acc0.state r.rid).isSome = true := by
        rw [hacc0]
        have hs : (rowOf s r.rid).isSome = true :=
          List.find?_isSome.mpr ⟨r, hrs, by simp⟩
        rw [rowOf_map (fun x => by split <;> rfl) s r.rid]
        simpa using hs
      obtain ⟨pre, post, hsplit⟩ := List.append_of_mem hstu
      rw [hsplit, List.foldl_append, List.foldl_cons]
      have hsome1 : (rowOf ((pre.foldl (cancelStudentStep AL emailOk idBase
          batchBase now) acc0)).state r.rid).isSome = true :=
        cancelFold_some AL emailOk idBase batchBase now pre acc0 r.rid hsome0
      have hcanc := cancelStudentStep_cancels AL emailOk idBase batchBase now
        stu (pre.foldl (cancelStudentStep AL emailOk idBase batchBase now)
          acc0) r.rid hi hsome1
      exact cancelFold_persist AL emailOk idBase batchBase now post _ r.rid
        hcanc

/-- A concrete approved reservation of student 7, selected for admin
cancellation in the C8 scenario. -/
def s8 : State :=
  [{ rid := 1, batchId := 2, studentId := 7, classroomId := 1, seatRow := 0,
     seatCol := 0, date := 0, timeSlot := 1, status := RStatus.approved,
     createdAt := 0, isAdminAction := false, cancelledSeatsInfo := [] }]

/-- C8 counterexample: with delivery failing, admin_cancel_view makes
exactly one delivery attempt for the student, it is never retried
(fewer than two attempts occur), refuting the claim that a failed
notification delivery is retried. -/
theorem res_C8_counterexample :
    (adminCancelPost s8 [1] true (fun _ => false) 100 50 0).attempts
      = [(7, false)] ∧
    (adminCancelPost s8 [1] true (fun _ => false) 100 50
      0).attempts.countP (fun a => decide (a.1 = 7)) = 1 ∧
    ¬ 2 ≤ ((adminCancelPost s8 [1] true (fun _ => false) 100 50
      0).attempts.countP fun a => decide (a.1 = 7)) := by
  refine ⟨by decide, by decide, by decide⟩

/-- Witness for res_C8 at the concrete C8 scenario. -/
theorem res_C8_witness :
    (fun _ : Nat => false) 7 = false ∧
    7 ∈ (adminCancelPost s8 [1] true (fun _ => false) 100 50 0).failFlash ∧
    (adminCancelPost s8 [1] true (fun _ => false) 100 50
      0).attempts.countP (fun a => decide (a.1 = 7)) = 1 ∧
    ∀ r ∈ s8, r.rid ∈ [1] → r.status = RStatus.approved →
      r.studentId = 7 →
      statusOf (adminCancelPost s8 [1] true (fun _ => false) 100 50
        0).state r.rid = some RStatus.cancelled :=
  res_C8 s8 [1] (fun _ => false) 100 50 0 7 (by decide)

/-- A row transformer that can only change the status column. -/
def StatusOnly (f : Reservation → Reservation) : Prop :=
  ∀ r, rowShape (f r) = rowShape r

/-- The transformer of setStatus is status-only. -/
theorem statusOnly_setStatus (i : Nat) (st : RStatus) :
    StatusOnly fun r => if r.rid = i then { r with status := st } else r := by
  intro r; by_cases h : r.rid = i <;> simp [h, rowShape]

/-- The transformer of rejectCompetitors is status-only. -/
theorem statusOnly_rejectCompetitors (res : Reservation) :
    StatusOnly fun r =>
      if r.rid ≠ res.rid ∧ r.classroomId = res.classroomId ∧
          r.seatRow = res.seatRow ∧ r.seatCol = res.seatCol ∧
          r.date = res.date ∧ r.timeSlot = res.timeSlot ∧
          r.status = RStatus.pending then
        { r with status := RStatus.rejected }
      else r := by
  intro r; dsimp only; split <;> simp [rowShape]

/-- A status-only transformer keeps the row id. -/
theorem StatusOnly.rid_eq {f : Reservation → Reservation}
    (h : StatusOnly f) (r : Reservation) : (f r).rid = r.rid := by
  have h2 := congrArg Reservation.rid (h r)
  exact h2

/-- A status-only transformer keeps the seat key. -/
theorem StatusOnly.seatKey_eq {f : Reservation → Reservation}
    (h : StatusOnly f) (r : Reservation) : seatKey (f r) = seatKey r := by
  have h2 := congrArg seatKey (h r)
  simpa [seatKey, rowShape] using h2

/-- A status-only map keeps the shape map of the table. -/
theorem StatusOnly.shapeMap {f : Reservation → Reservation}
    (h : StatusOnly f) (s : State) :
    (s.map f).map rowShape = s.map rowShape := by
  rw [List.map_map]
  exact List.map_congr_left fun r _ => h r

/-- Equal shape maps propagate the id map. -/
theorem ridMap_eq_of_shapeMap_eq {s s' : State}
    (h : s'.map rowShape = s.map rowShape) :
    (s'.map fun r => r.rid) = s.map fun r => r.rid := by
  have hcomp : (fun r : Reservation => r.rid) =
      (fun r : Reservation => r.rid) ∘ rowShape := rfl
  rw [hcomp, ← List.map_map, ← List.map_map, h]

/-- Equal shape maps transfer id uniqueness. -/
theorem uniqueIds_of_shapeMap_eq {s s' : State}
    (h : s'.map rowShape = s.map rowShape) (hu : UniqueIds s) :
    UniqueIds s' := by
  unfold UniqueIds at hu ⊢
  rw [ridMap_eq_of_shapeMap_eq h]
  exact hu

/-- Equal shape maps transfer the shape of any looked-up row. -/
theorem rowOf_shape_transfer {s s' : State}
    (h : s'.map rowShape = s.map rowShape) (i : Nat) :
    (rowOf s' i).map rowShape = (rowOf s i).map rowShape := by
  induction s' generalizing s with
  | nil =>
    cases s with
    | nil => rfl
    | cons b t => cases h
  | cons a t' ih =>
    cases s with
    | nil => cases h
    | cons b t =>
      simp only [List.map_cons, List.cons.injEq] at h
      have hrid : a.rid = b.rid := by
        have := congrArg Reservation.rid h.1
        exact this
      unfold rowOf
      by_cases hcase : a.rid = i
      · rw [List.find?_cons_of_pos _ (by simp [hcase]),
          List.find?_cons_of_pos _ (by simp [hrid ▸ hcase])]
        simp [h.1]
      · rw [List.find?_cons_of_neg _ (by simp [hcase]),
          List.find?_cons_of_neg _ (by simp [hrid ▸ hcase])]
        exact ih h.2

/-- Looking up the updated row after setStatus. -/
theorem rowOf_setStatus_self {s : State} {i : Nat} {res : Reservation}
    (h : rowOf s i = some res) (st : RStatus) :
    rowOf (setStatus s i st) i = some { res with status := st } := by
  unfold setStatus
  rw [rowOf_map (statusOnly_setStatus i st).rid_eq s i, h]
  have hi : res.rid = i := (rowOf_spec h).2
  simp [hi]

/-- setStatus leaves every other row lookup unchanged. -/
theorem rowOf_setStatus_other (s : State) {i j : Nat} (hij : j ≠ i)
    (st : RStatus) : rowOf (setStatus s j st) i = rowOf s i := by
  unfold setStatus
  rw [rowOf_map (statusOnly_setStatus j st).rid_eq s i]
  cases hcase : rowOf s i with
  | none => rfl
  | some ri =>
    have hi : ri.rid = i := (rowOf_spec hcase).2
    simp [hi, hij.symm]

/-- Looking up a row after rejectCompetitors: the status is unchanged or
was pending and is now rejected, everything else is untouched. -/
theorem rowOf_rejectCompetitors (s : State) (res : Reservation) (i : Nat) :
    rowOf (rejectCompetitors s res) i = (rowOf s i).map fun r =>
      if r.rid ≠ res.rid ∧ r.classroomId = res.classroomId ∧
          r.seatRow = res.seatRow ∧ r.seatCol = res.seatCol ∧
          r.date = res.date ∧ r.timeSlot = res.timeSlot ∧
          r.status = RStatus.pending then
        { r with status := RStatus.rejected }
      else r := by
  unfold rejectCompetitors
  exact rowOf_map (statusOnly_rejectCompetitors res).rid_eq s i

/-- rejectCompetitors leaves the lookup of the winner itself unchanged. -/
theorem rowOf_rejectCompetitors_winner {s : State} {res : Reservation}
    {i : Nat} (hres : res.rid = i) :
    rowOf (rejectCompetitors s res) i = rowOf s i := by
  rw [rowOf_rejectCompetitors]
  cases hcase : rowOf s i with
  | none => rfl
  | some ri =>
    have hi : ri.rid = i := (rowOf_spec hcase).2
    simp [hi, hres]

/-- rejectCompetitors leaves any non-pending row lookup unchanged. -/
theorem rowOf_rejectCompetitors_stable {s : State} {res ri : Reservation}
    {i : Nat} (hi : rowOf s i = some ri)
    (hst : ri.status ≠ RStatus.pending) :
    rowOf (rejectCompetitors s res) i = some ri := by
  rw [rowOf_rejectCompetitors, hi]
  simp only [Option.map_some']
  have : ¬(ri.rid ≠ res.rid ∧ ri.classroomId = res.classroomId ∧
      ri.seatRow = res.seatRow ∧ ri.seatCol = res.seatCol ∧
      ri.date = res.date ∧ ri.timeSlot = res.timeSlot ∧
      ri.status = RStatus.pending) := by
    rintro ⟨-, -, -, -, -, -, hp⟩
    exact hst hp
  rw [if_neg this]

/-- One admin_action iteration keeps the shape of the table. -/
theorem actStep_shapeMap (act : AdminAct) (s : State) (j : Nat) :
    (actStep act s j).map rowShape = s.map rowShape := by
  cases act with
  | reject => exact (statusOnly_setStatus j RStatus.rejected).shapeMap s
  | approve =>
    unfold actStep approveStep
    cases hj : rowOf s j with
    | none => rfl
    | some resj =>
      dsimp only
      split
      · exact (statusOnly_setStatus j RStatus.rejected).shapeMap s
      · unfold rejectCompetitors setStatus
        rw [(statusOnly_rejectCompetitors resj).shapeMap,
          (statusOnly_setStatus j RStatus.approved).shapeMap]

/-- The transaction loop of admin_action keeps the shape of the table. -/
theorem actFold_shapeMap (act : AdminAct) (s : State) (L : List Nat) :
    (actFold act s L).map rowShape = s.map rowShape := by
  induction L generalizing s with
  | nil => rfl
  | cons j rest ih => rw [actFold, ih, actStep_shapeMap]

/-- An approve iteration for one id: every other row keeps its shape and
either keeps its status or moves from pending to rejected. -/
theorem approveStep_status_cases {s : State} {i j : Nat} (hij : i ≠ j)
    {ri : Reservation} (hi : rowOf s i = some ri) :
    ∃ ri', rowOf (approveStep s j) i = some ri' ∧ rowShape ri' = rowShape ri ∧
      (ri'.status = ri.status ∨
        (ri.status = RStatus.pending ∧ ri'.status = RStatus.rejected)) := by
  unfold approveStep
  cases hj : rowOf s j with
  | none => exact ⟨ri, hi, rfl, Or.inl rfl⟩
  | some resj =>
    dsimp only
    split
    · refine ⟨ri, ?_, rfl, Or.inl rfl⟩
      rw [rowOf_setStatus_other s hij.symm RStatus.rejected]
      exact hi
    · have hset : rowOf (setStatus s j RStatus.approved) i = some ri := by
        rw [rowOf_setStatus_other s hij.symm RStatus.approved]; exact hi
      rw [rowOf_rejectCompetitors, hset]
      simp only [Option.map_some']
      split
      · next hcond =>
        exact ⟨_, rfl, by simp [rowShape], Or.inr ⟨hcond.2.2.2.2.2.2, rfl⟩⟩
      · exact ⟨ri, rfl, rfl, Or.inl rfl⟩

/-- A reject iteration leaves every other row lookup unchanged. -/
theorem rejectStep_rowOf_other (s : State) {i j : Nat} (hij : i ≠ j) :
    rowOf (rejectStep s j) i = rowOf s i :=
  rowOf_setStatus_other s hij.symm RStatus.rejected

/-- The isApprovedAt test phrased through the seat key. -/
theorem isApprovedAt_eq (c rr cc d t : Nat) (r : Reservation) :
    isApprovedAt c rr cc d t r =
      decide (seatKey r = (c, rr, cc, d, t) ∧ r.status = RStatus.approved) := by
  unfold isApprovedAt seatKey
  apply decide_eq_decide.mpr
  simp [Prod.ext_iff, and_assoc]

/-- The hard-lock test is the positivity of the approved count. -/
theorem hasApprovedAt_iff_countP (s : State) (c rr cc d t : Nat) :
    hasApprovedAt s c rr cc d t = true ↔
      0 < approvedCount s (c, rr, cc, d, t) := by
  unfold hasApprovedAt approvedCount
  rw [List.countP_pos_iff, List.any_eq_true]
  constructor
  · rintro ⟨r, hr, hp⟩
    exact ⟨r, hr, by rw [← isApprovedAt_eq]; exact hp⟩
  · rintro ⟨r, hr, hp⟩
    exact ⟨r, hr, by rw [isApprovedAt_eq]; exact hp⟩

/-- Seat keys agree exactly when all five seat columns agree. -/
theorem seatKey_eq_iff (r res : Reservation) :
    seatKey r = seatKey res ↔ r.classroomId = res.classroomId ∧
      r.seatRow = res.seatRow ∧ r.seatCol = res.seatCol ∧
      r.date = res.date ∧ r.timeSlot = res.timeSlot := by
  unfold seatKey
  simp [Prod.ext_iff]

/-- The double-check branch of an approve iteration: a hard-locked seat
turns the request into a rejection. -/
theorem approveStep_taken {s : State} {j : Nat} {resj : Reservation}
    (hj : rowOf s j = some resj)
    (htaken : hasApprovedAt s resj.classroomId resj.seatRow resj.seatCol
      resj.date resj.timeSlot = true) :
    approveStep s j = setStatus s j RStatus.rejected := by
  unfold approveStep
  rw [hj]
  dsimp only
  rw [if_pos htaken]

/-- The fresh-approve branch of an approve iteration. -/
theorem approveStep_free {s : State} {j : Nat} {resj : Reservation}
    (hj : rowOf s j = some resj)
    (hfree : hasApprovedAt s resj.classroomId resj.seatRow resj.seatCol
      resj.date resj.timeSlot = false) :
    approveStep s j =
      rejectCompetitors (setStatus s j RStatus.approved) resj := by
  unfold approveStep
  rw [hj]
  dsimp only
  rw [if_neg (by simp [hfree])]

/-- Status of the row setStatus rewrites. -/
theorem statusOf_setStatus_self {s : State} {j : Nat} {resj : Reservation}
    (hj : rowOf s j = some resj) (st : RStatus) :
    statusOf (setStatus s j st) j = some st := by
  unfold statusOf
  rw [rowOf_setStatus_self hj st]
  rfl

/-- An approve iteration for a non-approved target keeps every existing
hard lock in place. -/
theorem approveStep_keeps_lock {s : State} (hu : UniqueIds s) {j : Nat}
    (hnotapp : ∀ resj, rowOf s j = some resj →
      resj.status ≠ RStatus.approved)
    {c rr cc d t : Nat} (h : hasApprovedAt s c rr cc d t = true) :
    hasApprovedAt (approveStep s j) c rr cc d t = true := by
  obtain ⟨A, hA, hApp⟩ := List.any_eq_true.mp h
  have hAst : A.status = RStatus.approved :=
    (of_decide_eq_true hApp).2.2.2.2.2
  unfold approveStep
  cases hj : rowOf s j with
  | none => exact List.any_eq_true.mpr ⟨A, hA, hApp⟩
  | some resj =>
    have hArid : A.rid ≠ j := by
      intro he
      refine hnotapp resj hj ?_
      have hAeq : A = resj := row_eq_of_rid_eq hu hA (rowOf_spec hj).1
        (he.trans (rowOf_spec hj).2.symm)
      rw [← hAeq]
      exact hAst
    dsimp only
    split
    · refine List.any_eq_true.mpr ⟨A, ?_, hApp⟩
      unfold setStatus
      have : (if A.rid = j then { A with status := RStatus.rejected }
          else A) = A := by rw [if_neg hArid]
      exact this ▸ List.mem_map_of_mem _ hA
    · refine List.any_eq_true.mpr ⟨A, ?_, hApp⟩
      unfold rejectCompetitors setStatus
      have h1 : (if A.rid = j then { A with status := RStatus.approved }
          else A) = A := by rw [if_neg hArid]
      have hcond : ¬(A.rid ≠ resj.rid ∧
          A.classroomId = resj.classroomId ∧ A.seatRow = resj.seatRow ∧
          A.seatCol = resj.seatCol ∧ A.date = resj.date ∧
          A.timeSlot = resj.timeSlot ∧ A.status = RStatus.pending) := by
        rintro ⟨-, -, -, -, -, -, hp⟩
        rw [hAst] at hp
        cases hp
      have h2 : (fun r => if r.rid ≠ resj.rid ∧
          r.classroomId = resj.classroomId ∧ r.seatRow = resj.seatRow ∧
          r.seatCol = resj.seatCol ∧ r.date = resj.date ∧
          r.timeSlot = resj.timeSlot ∧ r.status = RStatus.pending then
            { r with status := RStatus.rejected } else r) A = A := by
        dsimp only
        rw [if_neg hcond]
      have hm1 := List.mem_map_of_mem (fun r =>
        if r.rid = j then { r with status := RStatus.approved } else r) hA
      dsimp only at hm1
      rw [h1] at hm1
      have hm2 := List.mem_map_of_mem (fun r =>
        if r.rid ≠ resj.rid ∧ r.classroomId = resj.classroomId ∧
            r.seatRow = resj.seatRow ∧ r.seatCol = resj.seatCol ∧
            r.date = resj.date ∧ r.timeSlot = resj.timeSlot ∧
            r.status = RStatus.pending then
          { r with status := RStatus.rejected } else r) hm1
      rw [h2] at hm2
      exact hm2

/-- setStatus over a table split at the target row. -/
theorem setStatus_decomp {u v : List Reservation} {res : Reservation}
    {i : Nat} (hres : res.rid = i) (hu : ∀ r ∈ u, r.rid ≠ i)
    (hv : ∀ r ∈ v, r.rid ≠ i) (st : RStatus) :
    setStatus (u ++ res :: v) i st = u ++ { res with status := st } :: v := by
  unfold setStatus
  rw [List.map_append, List.map_cons]
  rw [map_eq_self_of_mem (fun r hr => by rw [if_neg (hu r hr)]),
    map_eq_self_of_mem (fun r hr => by rw [if_neg (hv r hr)]),
    if_pos hres]

/-- rejectCompetitors over a table split at the winner row. -/
theorem rejectCompetitors_decomp (u v : List Reservation)
    (mid res : Reservation) (hmid : mid.rid = res.rid) :
    rejectCompetitors (u ++ mid :: v) res =
      (u.map fun r =>
        if r.rid ≠ res.rid ∧ r.classroomId = res.classroomId ∧
            r.seatRow = res.seatRow ∧ r.seatCol = res.seatCol ∧
            r.date = res.date ∧ r.timeSlot = res.timeSlot ∧
            r.status = RStatus.pending then
          { r with status := RStatus.rejected } else r) ++
      mid ::
      (v.map fun r =>
        if r.rid ≠ res.rid ∧ r.classroomId = res.classroomId ∧
            r.seatRow = res.seatRow ∧ r.seatCol = res.seatCol ∧
            r.date = res.date ∧ r.timeSlot = res.timeSlot ∧
            r.status = RStatus.pending then
          { r with status := RStatus.rejected } else r) := by
  unfold rejectCompetitors
  rw [List.map_append, List.map_cons]
  have hmidtrans : (if mid.rid ≠ res.rid ∧ mid.classroomId = res.classroomId ∧
      mid.seatRow = res.seatRow ∧ mid.seatCol = res.seatCol ∧
      mid.date = res.date ∧ mid.timeSlot = res.timeSlot ∧
      mid.status = RStatus.pending then
        { mid with status := RStatus.rejected } else mid) = mid := by
    rw [if_neg (by rintro ⟨hne, -⟩; exact hne hmid)]
  rw [hmidtrans]

/-- The fresh-approve iteration: the request becomes the unique approved
reservation of its seat key, no pending one remains there, and every other
seat key keeps its approved count. -/
theorem approveStep_fresh {s : State} (hu : UniqueIds s) {i : Nat}
    {ri : Reservation} (hi : rowOf s i = some ri)
    (hfree : hasApprovedAt s ri.classroomId ri.seatRow ri.seatCol ri.date
      ri.timeSlot = false) :
    statusOf (approveStep s i) i = some RStatus.approved ∧
    approvedCount (approveStep s i) (seatKey ri) = 1 ∧
    pendingCount (approveStep s i) (seatKey ri) = 0 ∧
    (∀ k, k ≠ seatKey ri →
      approvedCount (approveStep s i) k = approvedCount s k) ∧
    ∀ k, k ≠ seatKey ri →
      pendingCount (approveStep s i) k = pendingCount s k := by
  have hrid : ri.rid = i := (rowOf_spec hi).2
  have heq := approveStep_free hi (by rw [hfree])
  have hzero : approvedCount s (seatKey ri) = 0 := by
    by_contra hnz
    have hpos : 0 < approvedCount s (seatKey ri) := Nat.pos_of_ne_zero hnz
    have := (hasApprovedAt_iff_countP s ri.classroomId ri.seatRow ri.seatCol
      ri.date ri.timeSlot).mpr (by exact hpos)
    rw [hfree] at this
    cases this
  obtain ⟨u, v, hs, hui, hvi⟩ := rowOf_decomp hu hi
  have hset : setStatus s i RStatus.approved =
      u ++ { ri with status := RStatus.approved } :: v := by
    rw [hs]; exact setStatus_decomp hrid hui hvi RStatus.approved
  have hmidrid : ({ ri with status := RStatus.approved } :
      Reservation).rid = ri.rid := rfl
  have hrej := rejectCompetitors_decomp u v
    { ri with status := RStatus.approved } ri hmidrid
  have hstep : approveStep s i =
      (u.map fun r =>
        if r.rid ≠ ri.rid ∧ r.classroomId = ri.classroomId ∧
            r.seatRow = ri.seatRow ∧ r.seatCol = ri.seatCol ∧
            r.date = ri.date ∧ r.timeSlot = ri.timeSlot ∧
            r.status = RStatus.pending then
          { r with status := RStatus.rejected } else r) ++
      { ri with status := RStatus.approved } ::
      (v.map fun r =>
        if r.rid ≠ ri.rid ∧ r.classroomId = ri.classroomId ∧
            r.seatRow = ri.seatRow ∧ r.seatCol = ri.seatCol ∧
            r.date = ri.date ∧ r.timeSlot = ri.timeSlot ∧
            r.status = RStatus.pending then
          { r with status := RStatus.rejected } else r) := by
    rw [heq, hset, hrej]
  have hcount0 : ∀ r ∈ s, (fun r => decide (seatKey r = seatKey ri ∧
      r.status = RStatus.approved)) r = false := by
    intro r hr
    have := List.countP_eq_zero.mp hzero r hr
    simpa using this
  constructor
  · rw [heq]
    unfold statusOf
    rw [rowOf_rejectCompetitors_winner (hrid :
        ri.rid = i)]
    rw [rowOf_setStatus_self hi RStatus.approved]
    rfl
  refine ⟨?_, ?_, ?_, ?_⟩
  · rw [hstep]
    unfold approvedCount
    rw [List.countP_append, List.countP_cons]
    have hu0 : ((u.map fun r =>
        if r.rid ≠ ri.rid ∧ r.classroomId = ri.classroomId ∧
            r.seatRow = ri.seatRow ∧ r.seatCol = ri.seatCol ∧
            r.date = ri.date ∧ r.timeSlot = ri.timeSlot ∧
            r.status = RStatus.pending then
          { r with status := RStatus.rejected } else r)).countP
        (fun r => decide (seatKey r = seatKey ri ∧
          r.status = RStatus.approved)) = 0 := by
      rw [List.countP_eq_zero]
      intro x hx
      obtain ⟨r, hr, hrx⟩ := List.mem_map.mp hx
      have hrs : r ∈ s := by rw [hs]; exact List.mem_append_left _ hr
      have hrfalse := hcount0 r hrs
      subst hrx
      try dsimp only
      split
      · simp
      · simpa using hrfalse
    have hv0 : ((v.map fun r =>
        if r.rid ≠ ri.rid ∧ r.classroomId = ri.classroomId ∧
            r.seatRow = ri.seatRow ∧ r.seatCol = ri.seatCol ∧
            r.date = ri.date ∧ r.timeSlot = ri.timeSlot ∧
            r.status = RStatus.pending then
          { r with status := RStatus.rejected } else r)).countP
        (fun r => decide (seatKey r = seatKey ri ∧
          r.status = RStatus.approved)) = 0 := by
      rw [List.countP_eq_zero]
      intro x hx
      obtain ⟨r, hr, hrx⟩ := List.mem_map.mp hx
      have hrs : r ∈ s := by
        rw [hs]; exact List.mem_append_right _ (List.mem_cons_of_mem _ hr)
      have hrfalse := hcount0 r hrs
      subst hrx
      try dsimp only
      split
      · simp
      · simpa using hrfalse
    rw [hu0, hv0]
    simp [seatKey]
  · rw [hstep]
    unfold pendingCount
    rw [List.countP_append, List.countP_cons]
    have huq : ∀ (w : List Reservation), (∀ r ∈ w, r.rid ≠ i) →
        (∀ r ∈ w, r ∈ s) →
        ((w.map fun r =>
          if r.rid ≠ ri.rid ∧ r.classroomId = ri.classroomId ∧
              r.seatRow = ri.seatRow ∧ r.seatCol = ri.seatCol ∧
              r.date = ri.date ∧ r.timeSlot = ri.timeSlot ∧
              r.status = RStatus.pending then
            { r with status := RStatus.rejected } else r)).countP
          (fun r => decide (seatKey r = seatKey ri ∧
            r.status = RStatus.pending)) = 0 := by
      intro w hwid hws
      rw [List.countP_eq_zero]
      intro x hx
      obtain ⟨r, hr, hrx⟩ := List.mem_map.mp hx
      subst hrx
      try dsimp only
      split
      · simp
      · next hcond =>
        simp only [decide_eq_true_eq, not_and]
        intro hk hpend
        obtain ⟨h1, h2, h3, h4, h5⟩ := (seatKey_eq_iff r ri).mp hk
        exact hcond ⟨by rw [hrid]; exact hwid r hr, h1, h2, h3, h4, h5, hpend⟩
    rw [huq u hui (fun r hr => by rw [hs]; exact List.mem_append_left _ hr),
      huq v hvi (fun r hr => by
        rw [hs]; exact List.mem_append_right _ (List.mem_cons_of_mem _ hr))]
    simp
  · intro k hk
    rw [hstep]
    unfold approvedCount
    rw [List.countP_append, List.countP_cons]
    have hgmap : ∀ (w : List Reservation),
        ((w.map fun r =>
          if r.rid ≠ ri.rid ∧ r.classroomId = ri.classroomId ∧
              r.seatRow = ri.seatRow ∧ r.seatCol = ri.seatCol ∧
              r.date = ri.date ∧ r.timeSlot = ri.timeSlot ∧
              r.status = RStatus.pending then
            { r with status := RStatus.rejected } else r)).countP
          (fun r => decide (seatKey r = k ∧
            r.status = RStatus.approved)) =
        w.countP (fun r => decide (seatKey r = k ∧
          r.status = RStatus.approved)) := by
      intro w
      refine countP_map_eq_of_mem fun r _ => ?_
      dsimp only
      split
      · next hcond =>
        have hrp : r.status = RStatus.pending := hcond.2.2.2.2.2.2
        simp [hrp]
      · rfl
    have hrik : decide (seatKey ri = k ∧
        ri.status = RStatus.approved) = false := by
      simp only [decide_eq_false_iff_not, not_and]
      intro hkk
      exact absurd hkk.symm hk
    have hsrhs : s.countP (fun r => decide (seatKey r = k ∧
        r.status = RStatus.approved)) =
        u.countP (fun r => decide (seatKey r = k ∧
          r.status = RStatus.approved)) +
        v.countP (fun r => decide (seatKey r = k ∧
          r.status = RStatus.approved)) := by
      rw [hs, List.countP_append, List.countP_cons, hrik]
      simp
    have hmid : ¬ (seatKey ({ ri with status := RStatus.approved } :
        Reservation) = k) := by
      have hkey : seatKey ({ ri with status := RStatus.approved } :
          Reservation) = seatKey ri := rfl
      rw [hkey]
      exact fun hkk => hk hkk.symm
    rw [hgmap u, hgmap v, hsrhs]
    simp [hmid]
  · intro k hk
    rw [hstep]
    unfold pendingCount
    rw [List.countP_append, List.countP_cons]
    have hgmapq : ∀ (w : List Reservation),
        ((w.map fun r =>
          if r.rid ≠ ri.rid ∧ r.classroomId = ri.classroomId ∧
              r.seatRow = ri.seatRow ∧ r.seatCol = ri.seatCol ∧
              r.date = ri.date ∧ r.timeSlot = ri.timeSlot ∧
              r.status = RStatus.pending then
            { r with status := RStatus.rejected } else r)).countP
          (fun r => decide (seatKey r = k ∧
            r.status = RStatus.pending)) =
        w.countP (fun r => decide (seatKey r = k ∧
          r.status = RStatus.pending)) := by
      intro w
      refine countP_map_eq_of_mem fun r _ => ?_
      dsimp only
      split
      · next hcond =>
        have hkeyr : seatKey r = seatKey ri := (seatKey_eq_iff r ri).mpr
          ⟨hcond.2.1, hcond.2.2.1, hcond.2.2.2.1, hcond.2.2.2.2.1,
            hcond.2.2.2.2.2.1⟩
        simp [hkeyr, Ne.symm hk]
      · rfl
    have hkri : seatKey ri ≠ k := Ne.symm hk
    have hsrhsq : s.countP (fun r => decide (seatKey r = k ∧
        r.status = RStatus.pending)) =
        u.countP (fun r => decide (seatKey r = k ∧
          r.status = RStatus.pending)) +
        v.countP (fun r => decide (seatKey r = k ∧
          r.status = RStatus.pending)) := by
      rw [hs, List.countP_append, List.countP_cons]
      simp [hkri]
    rw [hgmapq u, hgmapq v, hsrhsq]
    have hmidq2 : seatKey ({ ri with status := RStatus.approved } :
        Reservation) = seatKey ri := rfl
    simp [hmidq2, hkri]

/-- Rows with equal shape agree on every non-status column. -/
theorem rowShape_fields {a b : Reservation} (h : rowShape a = rowShape b) :
    a.rid = b.rid ∧ a.classroomId = b.classroomId ∧ a.seatRow = b.seatRow ∧
    a.seatCol = b.seatCol ∧ a.date = b.date ∧ a.timeSlot = b.timeSlot ∧
    seatKey a = seatKey b := by
  refine ⟨?_, ?_, ?_, ?_, ?_, ?_, ?_⟩
  · have h2 := congrArg Reservation.rid h; exact h2
  · have h2 := congrArg Reservation.classroomId h; exact h2
  · have h2 := congrArg Reservation.seatRow h; exact h2
  · have h2 := congrArg Reservation.seatCol h; exact h2
  · have h2 := congrArg Reservation.date h; exact h2
  · have h2 := congrArg Reservation.timeSlot h; exact h2
  · have h2 := congrArg seatKey h; simpa [seatKey, rowShape] using h2

/-- An approve iteration keeps id uniqueness. -/
theorem approveStep_uniqueIds {s : State} (hu : UniqueIds s) (j : Nat) :
    UniqueIds (approveStep s j) :=
  uniqueIds_of_shapeMap_eq (actStep_shapeMap AdminAct.approve s j) hu

/-- An approve iteration on one id keeps every other id's row
non-approved. -/
theorem approveStep_NA {s : State} {j : Nat} {rest : List Nat}
    (hjrest : j ∉ rest)
    (hNA : ∀ x ∈ rest, ∃ rx, rowOf s x = some rx ∧
      rx.status ≠ RStatus.approved) :
    ∀ x ∈ rest, ∃ rx, rowOf (approveStep s j) x = some rx ∧
      rx.status ≠ RStatus.approved := by
  intro x hx
  obtain ⟨rx, hrx, hrxs⟩ := hNA x hx
  have hxj : x ≠ j := fun he => hjrest (he ▸ hx)
  obtain ⟨rx', hrx', hsh, hcase⟩ := approveStep_status_cases hxj hrx
  refine ⟨rx', hrx', ?_⟩
  rcases hcase with hsame | ⟨-, hrej⟩
  · rw [hsame]; exact hrxs
  · rw [hrej]; simp

/-- A non-pending status survives the whole approve loop when its id is
not in the processed list. -/
theorem approveFold_statusOf_stable {i : Nat} :
    ∀ (L : List Nat) (s : State), i ∉ L →
    ∀ {ri : Reservation}, rowOf s i = some ri →
      ri.status ≠ RStatus.pending →
      ∃ ri', rowOf (actFold AdminAct.approve s L) i = some ri' ∧
        ri'.status = ri.status ∧ rowShape ri' = rowShape ri := by
  intro L
  induction L with
  | nil => exact fun s _ ri hri _ => ⟨ri, hri, rfl, rfl⟩
  | cons j rest ih =>
    intro s hni ri hri hrist
    have hij : i ≠ j := fun he => hni (he ▸ List.mem_cons_self _ _)
    obtain ⟨ri2, hri2, hsh2, hcase⟩ := approveStep_status_cases hij hri
    have hst2 : ri2.status = ri.status := by
      rcases hcase with hsame | ⟨hpend, -⟩
      · exact hsame
      · exact absurd hpend hrist
    have hni' : i ∉ rest := fun hmem => hni (List.mem_cons_of_mem _ hmem)
    obtain ⟨ri', hri', hst', hsh'⟩ := ih _ hni' hri2
      (by rw [hst2]; exact hrist)
    exact ⟨ri', hri', by rw [hst', hst2], by rw [hsh', hsh2]⟩

/-- C1's admin_action component at loop level: when a hard lock for the
seat of a pending request exists, the approve loop rejects that request. -/
theorem approveFold_rejects {i : Nat} :
    ∀ (L : List Nat) (s : State), L.Nodup → UniqueIds s →
    (∀ j ∈ L, ∃ rj, rowOf s j = some rj ∧ rj.status ≠ RStatus.approved) →
    i ∈ L →
    ∀ {ri : Reservation}, rowOf s i = some ri →
      hasApprovedAt s ri.classroomId ri.seatRow ri.seatCol ri.date
        ri.timeSlot = true →
      statusOf (actFold AdminAct.approve s L) i = some RStatus.rejected := by
  intro L
  induction L with
  | nil => intro s _ _ _ hiL; cases hiL
  | cons j rest ih =>
    intro s hnd hu hNA hiL ri hri hlock
    have hndrest : rest.Nodup := (List.nodup_cons.mp hnd).2
    have hjrest : j ∉ rest := (List.nodup_cons.mp hnd).1
    by_cases hij : i = j
    · subst hij
      have hstep : approveStep s i = setStatus s i RStatus.rejected :=
        approveStep_taken hri hlock
      show statusOf (actFold AdminAct.approve (approveStep s i) rest) i =
        some RStatus.rejected
      rw [hstep]
      have hset : rowOf (setStatus s i RStatus.rejected) i =
          some { ri with status := RStatus.rejected } :=
        rowOf_setStatus_self hri RStatus.rejected
      obtain ⟨ri', hri', hst', -⟩ := approveFold_statusOf_stable rest _
        hjrest hset (by simp)
      unfold statusOf
      rw [hri']
      simp [hst']
    · have hiLrest : i ∈ rest := by
        rcases List.mem_cons.mp hiL with he | hm
        · exact absurd he hij
        · exact hm
      have hirest : i ≠ j := hij
      obtain ⟨ri2, hri2, hsh2, -⟩ := approveStep_status_cases hirest hri
      obtain ⟨-, hc, hrr, hcc, hd, ht, -⟩ := rowShape_fields hsh2
      have hNAj : ∀ resj, rowOf s j = some resj →
          resj.status ≠ RStatus.approved := by
        intro resj hresj
        obtain ⟨rj, hrj, hrjs⟩ := hNA j (List.mem_cons_self _ _)
        rw [hrj] at hresj
        cases hresj
        exact hrjs
      have hlock2 : hasApprovedAt (approveStep s j) ri2.classroomId
          ri2.seatRow ri2.seatCol ri2.date ri2.timeSlot = true := by
        rw [hc, hrr, hcc, hd, ht]
        exact approveStep_keeps_lock hu hNAj hlock
      exact ih _ hndrest (approveStep_uniqueIds hu j)
        (approveStep_NA hjrest fun x hx => hNA x (List.mem_cons_of_mem _ hx))
        hiLrest hri2 hlock2

/-- Once a seat key holds exactly one approved row and no pending one, an
approve iteration on a non-approved target keeps it that way. -/
theorem approveStep_counts_stable {s : State} (hu : UniqueIds s) {j : Nat}
    {k0 : Nat × Nat × Nat × Nat × Nat}
    (hA : approvedCount s k0 = 1) (hP : pendingCount s k0 = 0)
    (hNAj : ∀ rj, rowOf s j = some rj → rj.status ≠ RStatus.approved) :
    approvedCount (approveStep s j) k0 = 1 ∧
    pendingCount (approveStep s j) k0 = 0 := by
  cases hj : rowOf s j with
  | none =>
    unfold approveStep
    rw [hj]
    exact ⟨hA, hP⟩
  | some rj =>
    have hjr : rj.rid = j := (rowOf_spec hj).2
    by_cases htk : hasApprovedAt s rj.classroomId rj.seatRow rj.seatCol
        rj.date rj.timeSlot = true
    · rw [approveStep_taken hj htk]
      obtain ⟨u, v, hs, hui, hvi⟩ := rowOf_decomp hu hj
      have hqrj : decide (seatKey rj = k0 ∧
          rj.status = RStatus.pending) = false := by
        by_cases hkk : seatKey rj = k0
        · have hcnt := hP
          unfold pendingCount at hcnt
          have := List.countP_eq_zero.mp hcnt rj (rowOf_spec hj).1
          simpa using this
        · simp [hkk]
      have hprj : decide (seatKey rj = k0 ∧
          rj.status = RStatus.approved) = false := by
        have := hNAj rj hj
        simp [this]
      have hpmid : decide (seatKey ({ rj with status := RStatus.rejected } :
          Reservation) = k0 ∧ ({ rj with status := RStatus.rejected } :
          Reservation).status = RStatus.approved) = false := by simp
      have hqmid : decide (seatKey ({ rj with status := RStatus.rejected } :
          Reservation) = k0 ∧ ({ rj with status := RStatus.rejected } :
          Reservation).status = RStatus.pending) = false := by simp
      rw [hs, setStatus_decomp hjr hui hvi]
      unfold approvedCount at hA
      unfold pendingCount at hP
      unfold approvedCount pendingCount
      rw [hs, List.countP_append, List.countP_cons] at hA
      rw [hs, List.countP_append, List.countP_cons] at hP
      rw [List.countP_append, List.countP_cons]
      constructor
      · rw [hprj] at hA
        simp at hA ⊢
        exact hA
      · rw [hqrj] at hP
        simp at hP ⊢
        exact hP
    · have hfree : hasApprovedAt s rj.classroomId rj.seatRow rj.seatCol
          rj.date rj.timeSlot = false := by
        simpa using htk
      obtain ⟨-, -, -, hA4, hP4⟩ := approveStep_fresh hu hj hfree
      have hk0 : k0 ≠ seatKey rj := by
        intro he
        have hpos : 0 < approvedCount s (seatKey rj) := by
          rw [← he, hA]; omega
        have htrue := (hasApprovedAt_iff_countP s rj.classroomId rj.seatRow
          rj.seatCol rj.date rj.timeSlot).mpr hpos
        rw [hfree] at htrue
        cases htrue
      rw [hA4 k0 hk0, hP4 k0 hk0]
      exact ⟨hA, hP⟩

/-- The winner's counts survive the rest of the approve loop. -/
theorem approveFold_counts_stable {k0 : Nat × Nat × Nat × Nat × Nat} :
    ∀ (L : List Nat) (s : State), L.Nodup → UniqueIds s →
    (∀ j ∈ L, ∃ rj, rowOf s j = some rj ∧ rj.status ≠ RStatus.approved) →
    approvedCount s k0 = 1 → pendingCount s k0 = 0 →
    approvedCount (actFold AdminAct.approve s L) k0 = 1 ∧
    pendingCount (actFold AdminAct.approve s L) k0 = 0 := by
  intro L
  induction L with
  | nil => exact fun s _ _ _ hA hP => ⟨hA, hP⟩
  | cons j rest ih =>
    intro s hnd hu hNA hA hP
    have hNAj : ∀ rj, rowOf s j = some rj →
        rj.status ≠ RStatus.approved := by
      intro rj hrj
      obtain ⟨rj', hrj', hs'⟩ := hNA j (List.mem_cons_self _ _)
      rw [hrj'] at hrj
      cases hrj
      exact hs'
    obtain ⟨hA', hP'⟩ := approveStep_counts_stable hu hA hP hNAj
    exact ih _ (List.nodup_cons.mp hnd).2 (approveStep_uniqueIds hu j)
      (approveStep_NA (List.nodup_cons.mp hnd).1
        fun x hx => hNA x (List.mem_cons_of_mem _ hx)) hA' hP'

/-- Looking up a member row by its own id. -/
theorem rowOf_of_mem {s : State} (hu : UniqueIds s) {r : Reservation}
    (hr : r ∈ s) : rowOf s r.rid = some r := by
  have hsome : (rowOf s r.rid).isSome :=
    List.find?_isSome.mpr ⟨r, hr, by simp⟩
  obtain ⟨r', hr'⟩ := Option.isSome_iff_exists.mp hsome
  obtain ⟨hr'mem, hr'rid⟩ := rowOf_spec hr'
  rw [hr', row_eq_of_rid_eq hu hr'mem hr hr'rid]

/-- C2 at loop level: if the approve loop ends with the request approved,
its seat key holds exactly one approved row and no pending one. -/
theorem approveFold_unique_winner {i : Nat} :
    ∀ (L : List Nat) (s : State), L.Nodup → UniqueIds s →
    (∀ j ∈ L, ∃ rj, rowOf s j = some rj ∧ rj.status ≠ RStatus.approved) →
    i ∈ L →
    ∀ {ri : Reservation}, rowOf s i = some ri →
    statusOf (actFold AdminAct.approve s L) i = some RStatus.approved →
    approvedCount (actFold AdminAct.approve s L) (seatKey ri) = 1 ∧
    pendingCount (actFold AdminAct.approve s L) (seatKey ri) = 0 := by
  intro L
  induction L with
  | nil => intro s _ _ _ hiL; cases hiL
  | cons j rest ih =>
    intro s hnd hu hNA hiL ri hri happ
    have hndrest : rest.Nodup := (List.nodup_cons.mp hnd).2
    have hjrest : j ∉ rest := (List.nodup_cons.mp hnd).1
    by_cases hij : i = j
    · subst hij
      by_cases htk : hasApprovedAt s ri.classroomId ri.seatRow ri.seatCol
          ri.date ri.timeSlot = true
      · exfalso
        have hstep : approveStep s i = setStatus s i RStatus.rejected :=
          approveStep_taken hri htk
        have hset : rowOf (setStatus s i RStatus.rejected) i =
            some { ri with status := RStatus.rejected } :=
          rowOf_setStatus_self hri RStatus.rejected
        obtain ⟨ri', hri', hst', -⟩ := approveFold_statusOf_stable rest _
          hjrest hset (by simp)
        have : statusOf (actFold AdminAct.approve s (i :: rest)) i =
            some RStatus.rejected := by
          show statusOf (actFold AdminAct.approve (approveStep s i) rest) i
            = some RStatus.rejected
          rw [hstep]
          unfold statusOf
          rw [hri']
          simp [hst']
        rw [happ] at this
        cases (Option.some.injEq _ _).mp this
      · have hfree : hasApprovedAt s ri.classroomId ri.seatRow ri.seatCol
            ri.date ri.timeSlot = false := by simpa using htk
        obtain ⟨-, hA1, hP1, -, -⟩ := approveStep_fresh hu hri hfree
        show approvedCount (actFold AdminAct.approve (approveStep s i) rest)
            (seatKey ri) = 1 ∧
          pendingCount (actFold AdminAct.approve (approveStep s i) rest)
            (seatKey ri) = 0
        exact approveFold_counts_stable rest _ hndrest
          (approveStep_uniqueIds hu i)
          (approveStep_NA hjrest fun x hx => hNA x (List.mem_cons_of_mem _ hx))
          hA1 hP1
    · have hiLrest : i ∈ rest := by
        rcases List.mem_cons.mp hiL with he | hm
        · exact absurd he hij
        · exact hm
      obtain ⟨ri2, hri2, hsh2, -⟩ := approveStep_status_cases hij hri
      have hkey2 : seatKey ri2 = seatKey ri := (rowShape_fields hsh2).2.2.2.2.2.2
      have hres := ih _ hndrest (approveStep_uniqueIds hu j)
        (approveStep_NA hjrest fun x hx => hNA x (List.mem_cons_of_mem _ hx))
        hiLrest hri2 happ
      rw [hkey2] at hres
      exact hres

/-- Preprocessing of admin_action for a still-valid pending target: the
view reduces to the transaction loop over the valid ids, on a table where
only some pending rows were auto-expired; the target row survives intact,
the valid rows are pending, ids stay unique, and hard locks persist. -/
theorem adminAction_setup (env : Env) (now : Int) (s : State)
    (ids : List Nat) (act : AdminAct) {i : Nat} {ri : Reservation}
    (hu : UniqueIds s) (hri : rowOf s i = some ri)
    (hpend : ri.status = RStatus.pending) (hmem : i ∈ ids)
    (hwin : windowExpired env now ri = false) :
    ∃ (s1 : State) (validIds : List Nat),
      adminAction env now s ids act = actFold act s1 validIds ∧
      UniqueIds s1 ∧ validIds.Nodup ∧
      (∀ j ∈ validIds, ∃ rj, rowOf s1 j = some rj ∧
        rj.status = RStatus.pending) ∧
      i ∈ validIds ∧
      (∀ {x : Nat} {rx : Reservation}, rowOf s x = some rx →
        windowExpired env now rx = false → rowOf s1 x = some rx) ∧
      ∀ c rr cc d t, hasApprovedAt s c rr cc d t = true →
        hasApprovedAt s1 c rr cc d t = true := by
  have hrid : ri.rid = i := (rowOf_spec hri).2
  have hmemri : ri ∈ s := (rowOf_spec hri).1
  have htgt : ri ∈ s.filter fun r =>
      decide (r.rid ∈ ids ∧ r.status = RStatus.pending) :=
    List.mem_filter.mpr ⟨hmemri, by simp [hrid, hmem, hpend]⟩
  have hne : ¬ (s.filter fun r =>
      decide (r.rid ∈ ids ∧ r.status = RStatus.pending)).isEmpty = true := by
    intro hemp
    rw [List.isEmpty_iff] at hemp
    rw [hemp] at htgt
    cases htgt
  have hnotexp : ∀ {r : Reservation}, r ∈ s →
      windowExpired env now r = false →
      r.rid ∉ (((s.filter fun r =>
        decide (r.rid ∈ ids ∧ r.status = RStatus.pending)).filter fun r =>
          windowExpired env now r).map fun r => r.rid) := by
    intro r hrs hrw hmemexp
    obtain ⟨rw2, hrw2, hrw2id⟩ := List.mem_map.mp hmemexp
    obtain ⟨hrw2t, hrw2w⟩ := List.mem_filter.mp hrw2
    have hrw2s : rw2 ∈ s := (List.mem_filter.mp hrw2t).1
    have : rw2 = r := row_eq_of_rid_eq hu hrw2s hrs hrw2id
    rw [this] at hrw2w
    rw [hrw2w] at hrw
    cases hrw
  have hexpS : StatusOnly fun r : Reservation =>
      if r.rid ∈ (((s.filter fun r =>
          decide (r.rid ∈ ids ∧ r.status = RStatus.pending)).filter fun r =>
            windowExpired env now r).map fun r => r.rid) then
        { r with status := RStatus.expired }
      else r := by
    intro r; dsimp only; split <;> simp [rowShape]
  refine ⟨_, _, by rw [adminAction, if_neg hne], ?_, ?_, ?_, ?_, ?_, ?_⟩
  · exact uniqueIds_of_shapeMap_eq (hexpS.shapeMap s) hu
  · have hsub : (((s.filter fun r =>
        decide (r.rid ∈ ids ∧ r.status = RStatus.pending)).filter fun r =>
          !windowExpired env now r).map fun r => r.rid).Sublist
        (s.map fun r => r.rid) :=
      List.Sublist.map _ ((List.filter_sublist _).trans (List.filter_sublist _))
    exact hu.sublist hsub
  · intro j hj
    obtain ⟨rv, hrv, hrvid⟩ := List.mem_map.mp hj
    obtain ⟨hrvt, hrvw⟩ := List.mem_filter.mp hrv
    obtain ⟨hrvs, hrvc⟩ := List.mem_filter.mp hrvt
    have hrvpend : rv.status = RStatus.pending := (of_decide_eq_true hrvc).2
    have hrvwin : windowExpired env now rv = false := by
      simpa using hrvw
    refine ⟨rv, ?_, hrvpend⟩
    rw [rowOf_map hexpS.rid_eq s j, ← hrvid, rowOf_of_mem hu hrvs]
    simp only [Option.map_some']
    rw [if_neg (hnotexp hrvs hrvwin)]
  · refine List.mem_map.mpr ⟨ri, ?_, hrid⟩
    refine List.mem_filter.mpr ⟨htgt, by simp [hwin]⟩
  · intro x rx hrx hrxw
    rw [rowOf_map hexpS.rid_eq s x, hrx]
    simp only [Option.map_some']
    have hrxs : rx ∈ s := (rowOf_spec hrx).1
    rw [if_neg (hnotexp hrxs hrxw)]
  · intro c rr cc d t hlock
    obtain ⟨A, hA, hAp⟩ := List.any_eq_true.mp hlock
    have hAst : A.status = RStatus.approved := (of_decide_eq_true hAp).2.2.2.2.2
    refine List.any_eq_true.mpr ⟨A, ?_, hAp⟩
    have hAnot : A.rid ∉ (((s.filter fun r =>
        decide (r.rid ∈ ids ∧ r.status = RStatus.pending)).filter fun r =>
          windowExpired env now r).map fun r => r.rid) := by
      intro hmemexp
      obtain ⟨rw2, hrw2, hrw2id⟩ := List.mem_map.mp hmemexp
      obtain ⟨hrw2t, -⟩ := List.mem_filter.mp hrw2
      obtain ⟨hrw2s, hrw2c⟩ := List.mem_filter.mp hrw2t
      have heq : rw2 = A := row_eq_of_rid_eq hu hrw2s hA hrw2id
      have : rw2.status = RStatus.pending := (of_decide_eq_true hrw2c).2
      rw [heq, hAst] at this
      cases this
    have hfix : (if A.rid ∈ (((s.filter fun r =>
        decide (r.rid ∈ ids ∧ r.status = RStatus.pending)).filter fun r =>
          windowExpired env now r).map fun r => r.rid) then
        { A with status := RStatus.expired } else A) = A := by
      rw [if_neg hAnot]
    have := List.mem_map_of_mem (fun r : Reservation =>
      if r.rid ∈ (((s.filter fun r =>
          decide (r.rid ∈ ids ∧ r.status = RStatus.pending)).filter fun r =>
            windowExpired env now r).map fun r => r.rid) then
        { r with status := RStatus.expired } else r) hA
    dsimp only at this
    rw [hfix] at this
    exact this

/-- Two distinct members both satisfying a predicate force a count of at
least two. -/
theorem two_le_countP {α : Type} {l : List α} {p : α → Bool} {a b : α}
    (ha : a ∈ l) (hb : b ∈ l) (hab : a ≠ b) (hpa : p a = true)
    (hpb : p b = true) : 2 ≤ l.countP p := by
  obtain ⟨u, v, rfl⟩ := List.append_of_mem ha
  rw [List.countP_append, List.countP_cons_of_pos _ _ hpa]
  rcases List.mem_append.mp hb with hbu | hbv
  · have : 0 < u.countP p :=
      List.countP_pos_iff.mpr ⟨b, hbu, hpb⟩
    omega
  · rcases List.mem_cons.mp hbv with he | hbv'
    · exact absurd he.symm hab
    · have : 0 < v.countP p :=
        List.countP_pos_iff.mpr ⟨b, hbv', hpb⟩
      omega

/-- Every row of the table ends the approve loop with its original status
or rejected or approved. -/
theorem approveFold_row_cases {x : Nat} :
    ∀ (L : List Nat) (s : State) {rx : Reservation},
    rowOf s x = some rx →
    ∃ rx', rowOf (actFold AdminAct.approve s L) x = some rx' ∧
      rowShape rx' = rowShape rx ∧
      (rx'.status = rx.status ∨ rx'.status = RStatus.rejected ∨
        rx'.status = RStatus.approved) := by
  intro L
  induction L with
  | nil => exact fun s rx hrx => ⟨rx, hrx, rfl, Or.inl rfl⟩
  | cons j rest ih =>
    intro s rx hrx
    have hfoldeq : actFold AdminAct.approve s (j :: rest) =
        actFold AdminAct.approve (approveStep s j) rest := rfl
    by_cases hxj : x = j
    · subst hxj
      by_cases htk : hasApprovedAt s rx.classroomId rx.seatRow rx.seatCol
          rx.date rx.timeSlot = true
      · have hstep : approveStep s x = setStatus s x RStatus.rejected :=
          approveStep_taken hrx htk
        have hset : rowOf (setStatus s x RStatus.rejected) x =
            some { rx with status := RStatus.rejected } :=
          rowOf_setStatus_self hrx RStatus.rejected
        obtain ⟨rx', hrx', hsh', hcase'⟩ :=
          ih (setStatus s x RStatus.rejected) hset
        have hro : rowOf (actFold AdminAct.approve s (x :: rest)) x =
            some rx' := by
          rw [hfoldeq, hstep]
          exact hrx'
        have hshape : rowShape rx' = rowShape rx := hsh'
        refine ⟨rx', hro, hshape, ?_⟩
        rcases hcase' with h | h | h
        · exact Or.inr (Or.inl (by rw [h]))
        · exact Or.inr (Or.inl h)
        · exact Or.inr (Or.inr h)
      · have hfree : hasApprovedAt s rx.classroomId rx.seatRow rx.seatCol
            rx.date rx.timeSlot = false := by simpa using htk
        have hstep : approveStep s x =
            rejectCompetitors (setStatus s x RStatus.approved) rx :=
          approveStep_free hrx hfree
        have hset : rowOf (rejectCompetitors
            (setStatus s x RStatus.approved) rx) x =
            some { rx with status := RStatus.approved } := by
          rw [rowOf_rejectCompetitors_winner ((rowOf_spec hrx).2 :
            rx.rid = x)]
          exact rowOf_setStatus_self hrx RStatus.approved
        obtain ⟨rx', hrx', hsh', hcase'⟩ := ih _ hset
        have hro : rowOf (actFold AdminAct.approve s (x :: rest)) x =
            some rx' := by
          rw [hfoldeq, hstep]
          exact hrx'
        have hshape : rowShape rx' = rowShape rx := hsh'
        refine ⟨rx', hro, hshape, ?_⟩
        rcases hcase' with h | h | h
        · exact Or.inr (Or.inr (by rw [h]))
        · exact Or.inr (Or.inl h)
        · exact Or.inr (Or.inr h)
    · obtain ⟨rx2, hrx2, hsh2, hcase2⟩ := approveStep_status_cases hxj hrx
      obtain ⟨rx', hrx', hsh', hcase'⟩ := ih (approveStep s j) hrx2
      refine ⟨rx', hrx', by rw [hsh', hsh2], ?_⟩
      rcases hcase' with h | h | h
      · rcases hcase2 with h2 | ⟨-, h2⟩
        · exact Or.inl (by rw [h, h2])
        · exact Or.inr (Or.inl (by rw [h, h2]))
      · exact Or.inr (Or.inl h)
      · exact Or.inr (Or.inr h)

/-- C2: Approval preempts competitors: when admin_action approves a still
pending, still valid request, the request's seat key ends the operation
with exactly one approved reservation and zero pending ones, and every
other reservation that was pending for the same seat key is rejected. -/
theorem res_C2 (env : Env) (now : Int) (s : State) (ids : List Nat)
    (i : Nat) (ri : Reservation) (hu : UniqueIds s)
    (hri : rowOf s i = some ri) (hpend : ri.status = RStatus.pending)
    (hmem : i ∈ ids) (hwin : windowExpired env now ri = false)
    (happ : statusOf (adminAction env now s ids AdminAct.approve) i =
      some RStatus.approved) :
    approvedCount (adminAction env now s ids AdminAct.approve)
      (seatKey ri) = 1 ∧
    pendingCount (adminAction env now s ids AdminAct.approve)
      (seatKey ri) = 0 ∧
    ∀ j rj, rowOf s j = some rj → j ≠ i → rj.status = RStatus.pending →
      seatKey rj = seatKey ri →
      statusOf (adminAction env now s ids AdminAct.approve) j =
        some RStatus.rejected := by
  obtain ⟨s1, validIds, hAA, hu1, hnd, hNA, hiv, hsurv, hlockT⟩ :=
    adminAction_setup env now s ids AdminAct.approve hu hri hpend hmem hwin
  rw [hAA] at happ ⊢
  have hNA' : ∀ j ∈ validIds, ∃ rj, rowOf s1 j = some rj ∧
      rj.status ≠ RStatus.approved := by
    intro j hj
    obtain ⟨rj, h1, h2⟩ := hNA j hj
    exact ⟨rj, h1, by rw [h2]; simp⟩
  have hri1 : rowOf s1 i = some ri := hsurv hri hwin
  obtain ⟨hA1, hP1⟩ := approveFold_unique_winner validIds s1 hnd hu1 hNA'
    hiv hri1 happ
  refine ⟨hA1, hP1, ?_⟩
  intro j rj hrj hne hrjp hrjk
  obtain ⟨-, -, -, hdj, htj⟩ := (seatKey_eq_iff rj ri).mp hrjk
  have hrjwin : windowExpired env now rj = false := by
    unfold windowExpired at hwin ⊢
    rw [hdj, htj]
    exact hwin
  have hrj1 : rowOf s1 j = some rj := hsurv hrj hrjwin
  obtain ⟨rj', hrj', hshj', hcasej'⟩ :=
    approveFold_row_cases validIds s1 hrj1
  have hkeyj' : seatKey rj' = seatKey rj := (rowShape_fields hshj').2.2.2.2.2.2
  have hmemj' : rj' ∈ actFold AdminAct.approve s1 validIds :=
    (rowOf_spec hrj').1
  have hnotpend : rj'.status ≠ RStatus.pending := by
    intro hp
    have h0 := hP1
    unfold pendingCount at h0
    have := List.countP_eq_zero.mp h0 rj' hmemj'
    simp only [decide_eq_true_eq] at this
    exact this ⟨by rw [hkeyj', hrjk], hp⟩
  have hnotapp : rj'.status ≠ RStatus.approved := by
    intro hp
    obtain ⟨rI, hrI, hrIst⟩ := Option.map_eq_some'.mp happ
    have hrIa : rI.status = RStatus.approved := hrIst
    have hshape := rowOf_shape_transfer
      (actFold_shapeMap AdminAct.approve s1 validIds) i
    rw [hrI, hri1] at hshape
    simp only [Option.map_some'] at hshape
    have hfields := rowShape_fields ((Option.some.injEq _ _).mp hshape)
    have hkeyI : seatKey rI = seatKey ri := hfields.2.2.2.2.2.2
    have hridI : rI.rid = ri.rid := hfields.1
    have hridj' : rj'.rid = rj.rid := (rowShape_fields hshj').1
    have hnej : rj' ≠ rI := by
      intro he
      have h1 : rj.rid = j := (rowOf_spec hrj).2
      have h2 : ri.rid = i := (rowOf_spec hri).2
      rw [he] at hridj'
      rw [hridI, h2] at hridj'
      exact hne (h1 ▸ hridj').symm
    have hmemI : rI ∈ actFold AdminAct.approve s1 validIds :=
      (rowOf_spec hrI).1
    have h2le := two_le_countP (p := fun r =>
        decide (seatKey r = seatKey ri ∧ r.status = RStatus.approved))
      hmemj' hmemI hnej
      (by simp only [decide_eq_true_eq]
          exact ⟨by rw [hkeyj', hrjk], hp⟩)
      (by simp only [decide_eq_true_eq]
          exact ⟨hkeyI, hrIa⟩)
    unfold approvedCount at hA1
    omega
  have hfinal : rj'.status = RStatus.rejected := by
    rcases hcasej' with h | h | h
    · rw [h] at hnotpend ⊢
      exact absurd hrjp hnotpend
    · exact h
    · exact absurd h hnotapp
  unfold statusOf
  rw [hrj']
  simp [hfinal]

/-- Concrete winner request of the C2 scenario. -/
def cr1 : Reservation :=
  { rid := 1, batchId := 10, studentId := 7, classroomId := 1, seatRow := 0,
    seatCol := 0, date := 0, timeSlot := 1, status := RStatus.pending,
    createdAt := 0, isAdminAction := false, cancelledSeatsInfo := [] }

/-- Concrete competing request of the C2 scenario. -/
def cr2 : Reservation :=
  { rid := 2, batchId := 11, studentId := 8, classroomId := 1, seatRow := 0,
    seatCol := 0, date := 0, timeSlot := 1, status := RStatus.pending,
    createdAt := 0, isAdminAction := false, cancelledSeatsInfo := [] }

/-- Witness for res_C2: approving request 1 leaves its seat with one
approved and no pending row, the competitor rejected. -/
theorem res_C2_witness :
    approvedCount (adminAction env0 0 [cr1, cr2] [1] AdminAct.approve)
      (seatKey cr1) = 1 ∧
    pendingCount (adminAction env0 0 [cr1, cr2] [1] AdminAct.approve)
      (seatKey cr1) = 0 ∧
    ∀ j rj, rowOf [cr1, cr2] j = some rj → j ≠ 1 →
      rj.status = RStatus.pending → seatKey rj = seatKey cr1 →
      statusOf (adminAction env0 0 [cr1, cr2] [1] AdminAct.approve) j =
        some RStatus.rejected :=
  res_C2 env0 0 [cr1, cr2] [1] 1 cr1 (by unfold UniqueIds; decide)
    (by decide) (by decide) (by decide) (by decide) (by decide)

/-- A row map that fixes every row it leaves approved preserves the
hard-lock invariant. -/
theorem atMostOne_map {f : Reservation → Reservation}
    (hf : ∀ r, (f r).status = RStatus.approved → f r = r)
    {s : State} (h : AtMostOneApproved s) : AtMostOneApproved (s.map f) := by
  intro k
  refine le_trans (countP_map_le_of_reflects ?_ s) (h k)
  intro r hr
  simp only [decide_eq_true_eq] at hr ⊢
  have hfr : f r = r := hf r hr.2
  rw [hfr] at hr
  exact hr

/-- Appending rows that are not approved preserves the hard-lock
invariant. -/
theorem atMostOne_append {s t : State} (h : AtMostOneApproved s)
    (ht : ∀ r ∈ t, r.status ≠ RStatus.approved) :
    AtMostOneApproved (s ++ t) := by
  intro k
  unfold approvedCount at *
  rw [List.countP_append]
  have ht0 : t.countP (fun r => decide (seatKey r = k ∧
      r.status = RStatus.approved)) = 0 := by
    rw [List.countP_eq_zero]
    intro r hr
    simp only [decide_eq_true_eq, not_and]
    exact fun _ => ht r hr
  rw [ht0, Nat.add_zero]
  exact h k

/-- One admin_action iteration keeps id uniqueness. -/
theorem actStep_uniqueIds (act : AdminAct) {s : State} (hu : UniqueIds s)
    (j : Nat) : UniqueIds (actStep act s j) :=
  uniqueIds_of_shapeMap_eq (actStep_shapeMap act s j) hu

/-- One admin_action iteration preserves the hard-lock invariant. -/
theorem actStep_atMostOne (act : AdminAct) {s : State} (hu : UniqueIds s)
    (h : AtMostOneApproved s) (j : Nat) :
    AtMostOneApproved (actStep act s j) := by
  cases act with
  | reject =>
    show AtMostOneApproved (setStatus s j RStatus.rejected)
    refine atMostOne_map ?_ h
    intro r hr
    by_cases hc : r.rid = j
    · rw [if_pos hc] at hr ⊢
      cases hr
    · rw [if_neg hc]
  | approve =>
    show AtMostOneApproved (approveStep s j)
    cases hj : rowOf s j with
    | none =>
      unfold approveStep
      rw [hj]
      exact h
    | some resj =>
      by_cases htk : hasApprovedAt s resj.classroomId resj.seatRow
          resj.seatCol resj.date resj.timeSlot = true
      · rw [approveStep_taken hj htk]
        refine atMostOne_map ?_ h
        intro r hr
        by_cases hc : r.rid = j
        · rw [if_pos hc] at hr ⊢
          cases hr
        · rw [if_neg hc]
      · have hfree : hasApprovedAt s resj.classroomId resj.seatRow
            resj.seatCol resj.date resj.timeSlot = false := by simpa using htk
        obtain ⟨-, hA1, -, hother, -⟩ := approveStep_fresh hu hj hfree
        intro k
        by_cases hk : k = seatKey resj
        · rw [hk, hA1]
        · rw [hother k hk]
          exact h k

/-- The admin_action transaction loop preserves the hard-lock invariant. -/
theorem actFold_atMostOne (act : AdminAct) :
    ∀ (L : List Nat) (s : State), UniqueIds s → AtMostOneApproved s →
    AtMostOneApproved (actFold act s L) := by
  intro L
  induction L with
  | nil => exact fun s _ h => h
  | cons j rest ih =>
    intro s hu h
    exact ih _ (actStep_uniqueIds act hu j) (actStep_atMostOne act hu h j)

/-- The whole admin_action view preserves the hard-lock invariant. -/
theorem adminAction_atMostOne (env : Env) (now : Int) (s : State)
    (ids : List Nat) (act : AdminAct) (hu : UniqueIds s)
    (h : AtMostOneApproved s) :
    AtMostOneApproved (adminAction env now s ids act) := by
  simp only [adminAction]
  split
  · exact h
  · have hexpS : StatusOnly fun r : Reservation =>
        if r.rid ∈ (((s.filter fun r =>
            decide (r.rid ∈ ids ∧ r.status = RStatus.pending)).filter fun r =>
              windowExpired env now r).map fun r => r.rid) then
          { r with status := RStatus.expired }
        else r := by
      intro r; dsimp only; split <;> simp [rowShape]
    refine actFold_atMostOne act _ _
      (uniqueIds_of_shapeMap_eq (hexpS.shapeMap s) hu) ?_
    refine atMostOne_map ?_ h
    intro r hr
    by_cases hc : r.rid ∈ (((s.filter fun r =>
        decide (r.rid ∈ ids ∧ r.status = RStatus.pending)).filter fun r =>
          windowExpired env now r).map fun r => r.rid)
    · rw [if_pos hc] at hr ⊢
      cases hr
    · rw [if_neg hc]

/-- The submit view preserves the hard-lock invariant: it only ever adds
pending rows, and only when no error occurred. -/
theorem submit_atMostOne (env : Env) (now : Int) (today : Nat) (s : State)
    (q : SubmitReq) (newBatch nextId : Nat) (h : AtMostOneApproved s) :
    AtMostOneApproved
      (resultState s (submit env now today s q newBatch nextId)) := by
  cases hres : submit env now today s q newBatch nextId with
  | error e => exact h
  | ok s' =>
    show AtMostOneApproved s'
    have hshape : s' = s ++ createdRows q.studentRef q.cid q.date q.slot
        newBatch now nextId q.seats := by
      simp only [submit] at hres
      split_ifs at hres <;> first
        | exact absurd hres (by simp)
        | exact createSeats_ok_shape hres
    rw [hshape]
    refine atMostOne_append h ?_
    intro r hr
    rw [(createdRows_fields _ _ _ _ _ _ _ _ r hr).1]
    simp

/-- One admin-booking seat iteration preserves the hard-lock invariant. -/
theorem adminBookStep_atMostOne (cid d t stu batch : Nat) (now : Int)
    {acc : State × Nat} (h : AtMostOneApproved acc.1) (rc : Nat × Nat) :
    AtMostOneApproved (adminBookStep cid d t stu batch now acc rc).1 := by
  unfold adminBookStep
  split
  · exact h
  · next htaken =>
    have hfree : hasApprovedAt acc.1 cid rc.1 rc.2 d t = false := by
      simpa using htaken
    dsimp only
    intro k
    unfold approvedCount
    rw [List.countP_append, List.countP_cons]
    have hmap : ((acc.1.map fun r =>
        if r.classroomId = cid ∧ r.seatRow = rc.1 ∧ r.seatCol = rc.2 ∧
            r.date = d ∧ r.timeSlot = t ∧ r.status = RStatus.pending then
          { r with status := RStatus.rejected } else r)).countP
        (fun r => decide (seatKey r = k ∧ r.status = RStatus.approved)) ≤
        acc.1.countP (fun r => decide (seatKey r = k ∧
          r.status = RStatus.approved)) := by
      refine countP_map_le_of_reflects ?_ acc.1
      intro r hr
      simp only [decide_eq_true_eq] at hr ⊢
      by_cases hc : r.classroomId = cid ∧ r.seatRow = rc.1 ∧
          r.seatCol = rc.2 ∧ r.date = d ∧ r.timeSlot = t ∧
          r.status = RStatus.pending
      · rw [if_pos hc] at hr
        cases hr.2
      · rw [if_neg hc] at hr
        exact hr
    by_cases hk : k = (cid, rc.1, rc.2, d, t)
    · have hzero : acc.1.countP (fun r => decide (seatKey r = k ∧
          r.status = RStatus.approved)) = 0 := by
        by_contra hnz
        have hpos : 0 < approvedCount acc.1 k := Nat.pos_of_ne_zero hnz
        rw [hk] at hpos
        have := (hasApprovedAt_iff_countP acc.1 cid rc.1 rc.2 d t).mpr hpos
        rw [hfree] at this
        cases this
      simp only [List.countP_nil]
      split <;> omega
    · simp only [List.countP_nil]
      split
      · next hcond =>
        exfalso
        have hkk := (of_decide_eq_true hcond).1
        refine hk ?_
        rw [← hkk]
        simp [seatKey]
      · have := h k
        unfold approvedCount at this
        omega

/-- The admin booking view preserves the hard-lock invariant. -/
theorem adminBook_atMostOne (env : Env) (now : Int) (s : State)
    (cid d t : Nat) (blacklisted : Bool) (stu : Nat)
    (seats : List (Nat × Nat)) (batch nextId : Nat)
    (h : AtMostOneApproved s) :
    AtMostOneApproved
      (adminBook env now s cid d t blacklisted stu seats batch nextId) := by
  unfold adminBook
  split
  · exact h
  · split
    · exact h
    · have hfold : ∀ (l : List (Nat × Nat)) (acc : State × Nat),
          AtMostOneApproved acc.1 →
          AtMostOneApproved
            (l.foldl (adminBookStep cid d t stu batch now) acc).1 := by
        intro l
        induction l with
        | nil => exact fun acc hacc => hacc
        | cons rc rest ih =>
          intro acc hacc
          exact ih _ (adminBookStep_atMostOne cid d t stu batch now hacc rc)
      exact hfold seats (s, nextId) h

/-- The user cancellation view preserves the hard-lock invariant. -/
theorem cancelBooking_atMostOne (env : Env) (now : Int) (s : State)
    (stu batch : Nat) (h : AtMostOneApproved s) :
    AtMostOneApproved (cancelBooking env now s stu batch).1 := by
  have hmap : AtMostOneApproved (s.map fun r =>
      if inCancelBatch stu batch r = true then
        { r with status := RStatus.cancelled, isAdminAction := false }
      else r) := by
    refine atMostOne_map ?_ h
    intro r hr
    split at hr
    · cases hr
    · rename_i hc
      rw [if_neg hc]
  simp only [cancelBooking]
  cases hq : (s.filter (inCancelBatch stu batch)).head? with
  | none => exact h
  | some first =>
    dsimp only
    split
    · exact h
    · exact hmap

/-- The cleanup command preserves the hard-lock invariant. -/
theorem cleanupRun_atMostOne (env : Env) (now : Int) (today : Nat)
    (s : State) (h : AtMostOneApproved s) :
    AtMostOneApproved (cleanupRun env now today s) := by
  unfold cleanupRun cleanupPhase0 cleanupPhase1 cleanupPhase2
  refine atMostOne_map ?_ (atMostOne_map ?_ (atMostOne_map ?_ h)) <;>
    · intro r hr
      split at hr
      · cases hr
      · rename_i hc
        rw [if_neg hc]

/-- The admin cancellation view preserves the hard-lock invariant. -/
theorem adminCancelPost_atMostOne (s : State) (ids : List Nat)
    (canCancel : Bool) (emailOk : Nat → Bool) (idBase batchBase : Nat)
    (now : Int) (h : AtMostOneApproved s) :
    AtMostOneApproved
      (adminCancelPost s ids canCancel emailOk idBase batchBase now).state := by
  simp only [adminCancelPost]
  split
  · exact h
  · have hs1 : AtMostOneApproved (s.map fun r =>
        if seatKey r ∈ (((s.filter fun r => decide (r.rid ∈ ids ∧
            (r.status = RStatus.pending ∨
             r.status = RStatus.approved))).filter fun r =>
              decide (r.status = RStatus.pending)).map seatKey).dedup ∧
            r.status = RStatus.pending then
          { r with status := RStatus.cancelled }
        else r) := by
      refine atMostOne_map ?_ h
      intro r hr
      split at hr
      · cases hr
      · rename_i hc
        rw [if_neg hc]
    have hfold : ∀ (sts : List Nat) (AL : State) (acc : AdminCancelAcc),
        AtMostOneApproved acc.state →
        AtMostOneApproved ((sts.foldl (cancelStudentStep AL emailOk idBase
          batchBase now) acc)).state := by
      intro sts AL
      induction sts with
      | nil => exact fun acc hacc => hacc
      | cons st rest ih =>
        intro acc hacc
        refine ih _ ?_
        rcases hg : (AL.filter fun r => decide (r.studentId = st)).head? with
          - | first
        · simp only [cancelStudentStep, hg]
          exact hacc
        · simp only [cancelStudentStep, hg]
          refine atMostOne_append (atMostOne_map ?_ hacc) ?_
          · intro r hr
            split at hr
            · cases hr
            · rename_i hc
              rw [if_neg hc]
          · intro r hr
            rcases List.mem_singleton.mp hr with rfl
            simp
    exact hfold _ _ _ hs1

/-- An admin-booking iteration leaves the approved count of every other
seat key untouched: the map only turns pending rows rejected and the row
it appends sits at the iteration's own key. -/
theorem adminBookStep_other_key (cid d t stu batch : Nat) (now : Int)
    (acc : State × Nat) (rc : Nat × Nat) (k : Nat × Nat × Nat × Nat × Nat)
    (hk : k ≠ (cid, rc.1, rc.2, d, t)) :
    approvedCount (adminBookStep cid d t stu batch now acc rc).1 k =
      approvedCount acc.1 k := by
  unfold adminBookStep
  split
  · rfl
  · dsimp only
    unfold approvedCount
    rw [List.countP_append, List.countP_cons]
    have hmap : ((acc.1.map fun r =>
        if r.classroomId = cid ∧ r.seatRow = rc.1 ∧ r.seatCol = rc.2 ∧
            r.date = d ∧ r.timeSlot = t ∧ r.status = RStatus.pending then
          { r with status := RStatus.rejected } else r)).countP
        (fun r => decide (seatKey r = k ∧ r.status = RStatus.approved)) =
        acc.1.countP (fun r => decide (seatKey r = k ∧
          r.status = RStatus.approved)) := by
      refine countP_map_eq_of_mem ?_
      intro r hr
      simp only [decide_eq_decide]
      by_cases hc : r.classroomId = cid ∧ r.seatRow = rc.1 ∧
          r.seatCol = rc.2 ∧ r.date = d ∧ r.timeSlot = t ∧
          r.status = RStatus.pending
      · have hrp : r.status ≠ RStatus.approved := by
          rw [hc.2.2.2.2.2]
          exact fun hx => RStatus.noConfusion hx
        simp only [if_pos hc]
        constructor
        · rintro ⟨-, hx⟩
          cases hx
        · rintro ⟨-, hx⟩
          exact absurd hx hrp
      · simp only [if_neg hc]
    simp only [List.countP_nil]
    split
    · next hcond =>
      exfalso
      have hkk := (of_decide_eq_true hcond).1
      refine hk ?_
      rw [← hkk]
      simp [seatKey]
    · omega

/-- A hard-locked seat keeps its approved count across the admin booking
view: each iteration either skips the locked seat or books another one. -/
theorem adminBook_skip (env : Env) (now : Int) (s : State)
    (cid d t : Nat) (blacklisted : Bool) (stu : Nat)
    (seats : List (Nat × Nat)) (batch nextId : Nat) (r c : Nat)
    (h : hasApprovedAt s cid r c d t = true) :
    approvedCount (adminBook env now s cid d t blacklisted stu seats batch
      nextId) (cid, r, c, d, t) = approvedCount s (cid, r, c, d, t) := by
  unfold adminBook
  split
  · rfl
  · split
    · rfl
    · have hfold : ∀ (l : List (Nat × Nat)) (acc : State × Nat),
          approvedCount acc.1 (cid, r, c, d, t) =
            approvedCount s (cid, r, c, d, t) →
          approvedCount
              ((l.foldl (adminBookStep cid d t stu batch now) acc)).1
              (cid, r, c, d, t) =
            approvedCount s (cid, r, c, d, t) := by
        intro l
        induction l with
        | nil => exact fun acc hacc => hacc
        | cons rc rest ih =>
          intro acc hacc
          refine ih _ ?_
          by_cases hk : ((cid, r, c, d, t) : Nat × Nat × Nat × Nat × Nat) =
              (cid, rc.1, rc.2, d, t)
          · have hpos : 0 < approvedCount s (cid, r, c, d, t) :=
              (hasApprovedAt_iff_countP s cid r c d t).mp h
            have hpos1 : 0 < approvedCount acc.1 (cid, rc.1, rc.2, d, t) := by
              rw [← hk, hacc]
              exact hpos
            have htaken : hasApprovedAt acc.1 cid rc.1 rc.2 d t = true :=
              (hasApprovedAt_iff_countP acc.1 cid rc.1 rc.2 d t).mpr hpos1
            unfold adminBookStep
            rw [if_pos htaken]
            exact hacc
          · rw [adminBookStep_other_key cid d t stu batch now acc rc _ hk]
            exact hacc
      exact hfold seats (s, nextId) rfl

/-- Approved row hard-locking seat (1,0,0) on day 0 slot 1, used by the
C1 witness. -/
def cl1 : Reservation :=
  { rid := 1, batchId := 20, studentId := 7, classroomId := 1, seatRow := 0,
    seatCol := 0, date := 0, timeSlot := 1, status := RStatus.approved,
    createdAt := 0, isAdminAction := false, cancelledSeatsInfo := [] }

/-- Pending competitor for the seat cl1 holds, used by the C1 witness. -/
def cl2 : Reservation :=
  { rid := 2, batchId := 21, studentId := 8, classroomId := 1, seatRow := 0,
    seatCol := 0, date := 0, timeSlot := 1, status := RStatus.pending,
    createdAt := 0, isAdminAction := false, cancelledSeatsInfo := [] }

/-- C1: An approved reservation is a hard lock on its
(classroom, row, col, date, slot) key: submit refuses to create anything
and leaves the table unchanged when any requested seat is locked;
admin_action marks a locked pending request rejected instead of approving
it; admin_booking_view skips a locked seat, leaving its approved count
unchanged; and the at-most-one-approved-per-key invariant is preserved by
submit, admin_action, admin_booking_view, cancel_booking, the cleanup
command and admin_cancel_view. -/
theorem res_C1 (env : Env) (now : Int) :
    (∀ (today : Nat) (s : State) (q : SubmitReq) (newBatch nextId : Nat),
      (∃ rc ∈ q.seats,
        hasApprovedAt s q.cid rc.1 rc.2 q.date q.slot = true) →
      (∃ e, submit env now today s q newBatch nextId = Except.error e) ∧
      resultState s (submit env now today s q newBatch nextId) = s) ∧
    (∀ (s : State) (ids : List Nat) (i : Nat) (ri : Reservation),
      UniqueIds s → rowOf s i = some ri → ri.status = RStatus.pending →
      i ∈ ids → windowExpired env now ri = false →
      hasApprovedAt s ri.classroomId ri.seatRow ri.seatCol ri.date
        ri.timeSlot = true →
      statusOf (adminAction env now s ids AdminAct.approve) i =
        some RStatus.rejected) ∧
    (∀ (s : State) (cid d t : Nat) (b : Bool) (stu : Nat)
        (seats : List (Nat × Nat)) (batch nextId r c : Nat),
      hasApprovedAt s cid r c d t = true →
      approvedCount (adminBook env now s cid d t b stu seats batch nextId)
        (cid, r, c, d, t) = approvedCount s (cid, r, c, d, t)) ∧
    (∀ (today : Nat) (s : State) (q : SubmitReq) (newBatch nextId : Nat),
      AtMostOneApproved s →
      AtMostOneApproved
        (resultState s (submit env now today s q newBatch nextId))) ∧
    (∀ (s : State) (ids : List Nat) (act : AdminAct), UniqueIds s →
      AtMostOneApproved s →
      AtMostOneApproved (adminAction env now s ids act)) ∧
    (∀ (s : State) (cid d t : Nat) (b : Bool) (stu : Nat)
        (seats : List (Nat × Nat)) (batch nextId : Nat),
      AtMostOneApproved s →
      AtMostOneApproved
        (adminBook env now s cid d t b stu seats batch nextId)) ∧
    (∀ (s : State) (stu batch : Nat), AtMostOneApproved s →
      AtMostOneApproved (cancelBooking env now s stu batch).1) ∧
    (∀ (today : Nat) (s : State), AtMostOneApproved s →
      AtMostOneApproved (cleanupRun env now today s)) ∧
    (∀ (s : State) (ids : List Nat) (cc : Bool) (eo : Nat → Bool)
        (ib bb : Nat), AtMostOneApproved s →
      AtMostOneApproved
        (adminCancelPost s ids cc eo ib bb now).state) := by
  refine ⟨?_, ?_, ?_, ?_, ?_, ?_, ?_, ?_, ?_⟩
  · intro today s q newBatch nextId hblocked
    have herr : ∃ e, submit env now today s q newBatch nextId =
        Except.error e := by
      simp only [submit]
      split_ifs <;> first
        | exact ⟨_, rfl⟩
        | exact createSeats_blocked hblocked
    obtain ⟨e, he⟩ := herr
    exact ⟨⟨e, he⟩, by rw [he]; rfl⟩
  · intro s ids i ri hu hri hpend hmem hwin htaken
    obtain ⟨s1, validIds, heq, hu1, hnd, hNA, hiv, hsurv, hlock⟩ :=
      adminAction_setup env now s ids AdminAct.approve hu hri hpend hmem hwin
    have hri1 : rowOf s1 i = some ri := hsurv hri hwin
    have hNA2 : ∀ j ∈ validIds, ∃ rj, rowOf s1 j = some rj ∧
        rj.status ≠ RStatus.approved := by
      intro j hj
      obtain ⟨rj, hrj, hrjp⟩ := hNA j hj
      refine ⟨rj, hrj, ?_⟩
      rw [hrjp]
      exact fun hx => RStatus.noConfusion hx
    have hlock1 : hasApprovedAt s1 ri.classroomId ri.seatRow ri.seatCol
        ri.date ri.timeSlot = true :=
      hlock ri.classroomId ri.seatRow ri.seatCol ri.date ri.timeSlot htaken
    rw [heq]
    exact approveFold_rejects validIds s1 hnd hu1 hNA2 hiv hri1 hlock1
  · intro s cid d t b stu seats batch nextId r c hlock
    exact adminBook_skip env now s cid d t b stu seats batch nextId r c hlock
  · intro today s q newBatch nextId h
    exact submit_atMostOne env now today s q newBatch nextId h
  · intro s ids act hu h
    exact adminAction_atMostOne env now s ids act hu h
  · intro s cid d t b stu seats batch nextId h
    exact adminBook_atMostOne env now s cid d t b stu seats batch nextId h
  · intro s stu batch h
    exact cancelBooking_atMostOne env now s stu batch h
  · intro today s h
    exact cleanupRun_atMostOne env now today s h
  · intro s ids cc eo ib bb h
    exact adminCancelPost_atMostOne s ids cc eo ib bb now h

/-- Witness for res_C1 at a concrete input: approving the pending
competitor of an already approved seat marks it rejected. -/
theorem res_C1_witness :
    statusOf (adminAction env0 0 [cl1, cl2] [2] AdminAct.approve) 2 =
      some RStatus.rejected :=
  (res_C1 env0 0).2.1 [cl1, cl2] [2] 2 cl2 (by unfold UniqueIds; decide)
    (by decide) (by decide) (by decide) (by decide) (by decide)

/-- A map that fixes elements, or keeps them and their images outside the
filter, leaves the filtered list unchanged. -/
theorem filter_map_id_of {α : Type} (p : α → Bool) (f : α → α) :
    ∀ l : List α, (∀ a ∈ l, (p a = false ∧ p (f a) = false) ∨ f a = a) →
      (l.map f).filter p = l.filter p
  | [], _ => rfl
  | a :: tl, h => by
    have htl := filter_map_id_of p f tl fun x hx =>
      h x (List.mem_cons_of_mem _ hx)
    rcases h a (List.mem_cons_self _ _) with ⟨hpa, hpfa⟩ | hfa
    · simp [List.filter_cons, hpa, hpfa, htl]
    · cases hpa : p a <;> simp [List.filter_cons, hfa, hpa, htl]

/-- The notified flag plays no role in the triple key. -/
theorem codeTriple_set (cls d t : Nat) (a : AccessCode) (b : Bool) :
    codeTriple cls d t { a with notified := b } = codeTriple cls d t a := rfl

/-- Marking a triple notified rewrites exactly its own filtered rows. -/
theorem markNotified_filter_self (l : List AccessCode) (cls d t : Nat) :
    (markNotified l cls d t).filter (codeTriple cls d t) =
      (l.filter (codeTriple cls d t)).map
        fun a => { a with notified := true } := by
  unfold markNotified
  induction l with
  | nil => rfl
  | cons a tl ih =>
    simp only [List.map_cons, List.filter_cons]
    cases hPa : codeTriple cls d t a
    · simp [hPa, ih]
    · simp [hPa, codeTriple_set, ih]

/-- Marking one triple notified does not move the rows of another. -/
theorem markNotified_filter_other (l : List AccessCode)
    (cls0 d0 t0 cls d t : Nat) (hne : ¬(cls0 = cls ∧ d0 = d ∧ t0 = t)) :
    (markNotified l cls0 d0 t0).filter (codeTriple cls d t) =
      l.filter (codeTriple cls d t) := by
  unfold markNotified
  refine filter_map_id_of _ _ l ?_
  intro a ha
  cases h0 : codeTriple cls0 d0 t0 a
  · right
    simp [h0]
  · left
    have h0f := of_decide_eq_true h0
    have hPa : codeTriple cls d t a = false := by
      cases hPa : codeTriple cls d t a
      · rfl
      · exfalso
        have hPf := of_decide_eq_true hPa
        exact hne ⟨h0f.1.symm.trans hPf.1, h0f.2.1.symm.trans hPf.2.1,
          h0f.2.2.symm.trans hPf.2.2⟩
    refine ⟨hPa, ?_⟩
    simp [h0, codeTriple_set, hPa]

/-- Processing one classroom leaves the code rows of every other triple
where they were. -/
theorem processClassroom_filter_other (resv : State) (today t0 : Nat)
    (codeOf : Nat → Nat → Nat) (acc : SendAcc) (cls0 : Nat)
    (cls d t : Nat) (hne : ¬(cls0 = cls ∧ today = d ∧ t0 = t)) :
    (processClassroom resv today t0 codeOf acc cls0).codes.filter
        (codeTriple cls d t) =
      acc.codes.filter (codeTriple cls d t) := by
  cases hfound : acc.codes.find? (codeTriple cls0 today t0) with
  | some a =>
    simp only [processClassroom, hfound]
    split
    · rfl
    · exact markNotified_filter_other _ _ _ _ _ _ _ hne
  | none =>
    simp only [processClassroom, hfound]
    have hnew : codeTriple cls d t
        ({ classroomId := cls0, date := today, timeSlot := t0,
           code := codeOf cls0 t0, notified := false } : AccessCode) =
          false := decide_eq_false hne
    split
    · next hn => exact absurd hn (by simp)
    · rw [markNotified_filter_other _ _ _ _ _ _ _ hne, List.filter_append]
      simp [List.filter_cons, hnew]

/-- Processing one classroom only appends mails, all carrying its own
classroom and slot. -/
theorem processClassroom_mails (resv : State) (today t0 : Nat)
    (codeOf : Nat → Nat → Nat) (acc : SendAcc) (cls0 : Nat) :
    ∃ l, (processClassroom resv today t0 codeOf acc cls0).mails =
        acc.mails ++ l ∧
      ∀ mail ∈ l, mail.classroomId = cls0 ∧ mail.timeSlot = t0 := by
  cases hfound : acc.codes.find? (codeTriple cls0 today t0) with
  | some a =>
    simp only [processClassroom, hfound]
    split
    · exact ⟨[], by simp, by simp⟩
    · refine ⟨_, rfl, ?_⟩
      intro mail hm
      obtain ⟨stu, -, hstu⟩ := List.mem_map.mp hm
      rw [← hstu]
      exact ⟨rfl, rfl⟩
  | none =>
    simp only [processClassroom, hfound]
    split
    · exact ⟨[], by simp, by simp⟩
    · refine ⟨_, rfl, ?_⟩
      intro mail hm
      obtain ⟨stu, -, hstu⟩ := List.mem_map.mp hm
      rw [← hstu]
      exact ⟨rfl, rfl⟩

/-- Processing a classroom whose triple has no code row yet: one fresh row
is created and marked notified, and its code is mailed to every approved
student of the triple. -/
theorem processClassroom_fresh (resv : State) (today t : Nat)
    (codeOf : Nat → Nat → Nat) (acc : SendAcc) (cls : Nat)
    (hemp : acc.codes.filter (codeTriple cls today t) = []) :
    (processClassroom resv today t codeOf acc cls).codes.filter
        (codeTriple cls today t) =
      [{ classroomId := cls, date := today, timeSlot := t,
         code := codeOf cls t, notified := true }] ∧
    (processClassroom resv today t codeOf acc cls).mails =
      acc.mails ++ (approvedStudents resv cls today t).map fun stu =>
        { studentId := stu, classroomId := cls, timeSlot := t,
          code := codeOf cls t } := by
  have hfound : acc.codes.find? (codeTriple cls today t) = none := by
    rw [find?_eq_head?_filter, hemp]
    rfl
  have hnew : codeTriple cls today t
      ({ classroomId := cls, date := today, timeSlot := t,
         code := codeOf cls t, notified := false } : AccessCode) = true :=
    decide_eq_true ⟨rfl, rfl, rfl⟩
  simp only [processClassroom, hfound]
  split
  · next hn => exact absurd hn (by simp)
  · constructor
    · rw [markNotified_filter_self, List.filter_append, hemp]
      simp [List.filter_cons, hnew]
    · rfl

/-- Processing a classroom whose triple holds one unnotified code row: the
row is marked notified and its stored code is mailed to every approved
student of the triple. -/
theorem processClassroom_hit (resv : State) (today t : Nat)
    (codeOf : Nat → Nat → Nat) (acc : SendAcc) (cls : Nat) (a : AccessCode)
    (hfil : acc.codes.filter (codeTriple cls today t) = [a])
    (hnot : a.notified = false) :
    (processClassroom resv today t codeOf acc cls).codes.filter
        (codeTriple cls today t) =
      [{ classroomId := cls, date := today, timeSlot := t,
         code := a.code, notified := true }] ∧
    (processClassroom resv today t codeOf acc cls).mails =
      acc.mails ++ (approvedStudents resv cls today t).map fun stu =>
        { studentId := stu, classroomId := cls, timeSlot := t,
          code := a.code } := by
  have hfound : acc.codes.find? (codeTriple cls today t) = some a := by
    rw [find?_eq_head?_filter, hfil]
    rfl
  have hPa : codeTriple cls today t a = true := by
    have ha : a ∈ acc.codes.filter (codeTriple cls today t) := by
      rw [hfil]
      exact List.mem_singleton_self a
    exact (List.mem_filter.mp ha).2
  have hfields := of_decide_eq_true hPa
  simp only [processClassroom, hfound]
  split
  · next hn => rw [hnot] at hn; cases hn
  · constructor
    · rw [markNotified_filter_self, hfil]
      obtain ⟨h1, h2, h3⟩ := hfields
      cases a
      simp only [List.map_cons, List.map_nil]
      simp only at h1 h2 h3 ⊢
      rw [h1, h2, h3]
    · rfl

/-- Processing a classroom whose triple's single code row is already
notified changes nothing and sends nothing. -/
theorem processClassroom_skip (resv : State) (today t : Nat)
    (codeOf : Nat → Nat → Nat) (acc : SendAcc) (cls : Nat) (a : AccessCode)
    (hfil : acc.codes.filter (codeTriple cls today t) = [a])
    (hnot : a.notified = true) :
    (processClassroom resv today t codeOf acc cls).codes = acc.codes ∧
    (processClassroom resv today t codeOf acc cls).mails = acc.mails := by
  have hfound : acc.codes.find? (codeTriple cls today t) = some a := by
    rw [find?_eq_head?_filter, hfil]
    rfl
  simp only [processClassroom, hfound]
  split
  · exact ⟨rfl, rfl⟩
  · next hn => exact absurd hnot hn

/-- The run outcome C7 expects for the triple (cls, today, t): a single
notified code row and a mail with its code for every approved student. -/
def C7Done (resv : State) (today t cls : Nat) (acc : SendAcc) : Prop :=
  ∃ c0, acc.codes.filter (codeTriple cls today t) =
      [{ classroomId := cls, date := today, timeSlot := t, code := c0,
         notified := true }] ∧
    ∀ stu ∈ approvedStudents resv cls today t,
      ({ studentId := stu, classroomId := cls, timeSlot := t,
         code := c0 } : CodeMail) ∈ acc.mails

/-- The triple (cls, today, t) still has its initial code rows. -/
def C7Init (today t cls : Nat) (codes0 : List AccessCode)
    (acc : SendAcc) : Prop :=
  acc.codes.filter (codeTriple cls today t) =
    codes0.filter (codeTriple cls today t)

/-- Once the C7 outcome holds for a triple it survives any further
classroom processing: the triple's own row being notified, its classroom
is skipped, and other triples only add foreign rows and mails. -/
theorem processClassroom_C7Done (resv : State) (today t0 : Nat)
    (codeOf : Nat → Nat → Nat) (acc : SendAcc) (cls0 cls t : Nat)
    (hd : C7Done resv today t cls acc) :
    C7Done resv today t cls
      (processClassroom resv today t0 codeOf acc cls0) := by
  obtain ⟨c0, hfil, hmails⟩ := hd
  by_cases hq : cls0 = cls ∧ t0 = t
  · obtain ⟨rfl, rfl⟩ := hq
    obtain ⟨hcs, hms⟩ :=
      processClassroom_skip resv today t0 codeOf acc cls0 _ hfil rfl
    exact ⟨c0, by rw [hcs]; exact hfil, by rw [hms]; exact hmails⟩
  · have hne : ¬(cls0 = cls ∧ today = today ∧ t0 = t) :=
      fun h => hq ⟨h.1, h.2.2⟩
    obtain ⟨l, hl, -⟩ := processClassroom_mails resv today t0 codeOf acc cls0
    refine ⟨c0, ?_, ?_⟩
    · rw [processClassroom_filter_other resv today t0 codeOf acc cls0 cls
        today t hne]
      exact hfil
    · intro stu hstu
      rw [hl]
      exact List.mem_append_left _ (hmails stu hstu)

/-- Processing the triple's own classroom while in the notification window
establishes the C7 outcome, whether the code row is fresh, present but
unnotified, or the outcome already holds. -/
theorem processClassroom_self_C7 (resv : State) (today t : Nat)
    (codeOf : Nat → Nat → Nat) (acc : SendAcc) (cls : Nat)
    (codes0 : List AccessCode)
    (hinit : codes0.filter (codeTriple cls today t) = [] ∨
      ∃ a, codes0.filter (codeTriple cls today t) = [a] ∧
        a.notified = false)
    (hinv : C7Init today t cls codes0 acc ∨ C7Done resv today t cls acc) :
    C7Done resv today t cls
      (processClassroom resv today t codeOf acc cls) := by
  rcases hinv with h1 | hd
  · rcases hinit with hemp | ⟨a, hfa, hnot⟩
    · obtain ⟨hcf, hmf⟩ := processClassroom_fresh resv today t codeOf acc cls
        (h1.trans hemp)
      refine ⟨codeOf cls t, hcf, ?_⟩
      intro stu hstu
      rw [hmf]
      exact List.mem_append_right _ (List.mem_map_of_mem _ hstu)
    · obtain ⟨hcf, hmf⟩ := processClassroom_hit resv today t codeOf acc cls a
        (h1.trans hfa) hnot
      refine ⟨a.code, hcf, ?_⟩
      intro stu hstu
      rw [hmf]
      exact List.mem_append_right _ (List.mem_map_of_mem _ hstu)
  · exact processClassroom_C7Done resv today t codeOf acc cls cls t hd

/-- Every classroom-processing step keeps the triple either untouched or
with the C7 outcome established. -/
theorem processClassroom_C7Inv (resv : State) (today t0 : Nat)
    (codeOf : Nat → Nat → Nat) (acc : SendAcc) (cls0 cls t : Nat)
    (codes0 : List AccessCode)
    (hinit : codes0.filter (codeTriple cls today t) = [] ∨
      ∃ a, codes0.filter (codeTriple cls today t) = [a] ∧
        a.notified = false)
    (hinv : C7Init today t cls codes0 acc ∨ C7Done resv today t cls acc) :
    C7Init today t cls codes0
        (processClassroom resv today t0 codeOf acc cls0) ∨
      C7Done resv today t cls
        (processClassroom resv today t0 codeOf acc cls0) := by
  by_cases hq : cls0 = cls ∧ t0 = t
  · obtain ⟨rfl, rfl⟩ := hq
    exact Or.inr
      (processClassroom_self_C7 resv today t0 codeOf acc cls0 codes0 hinit
        hinv)
  · have hne : ¬(cls0 = cls ∧ today = today ∧ t0 = t) :=
      fun h => hq ⟨h.1, h.2.2⟩
    rcases hinv with h1 | hd
    · left
      unfold C7Init at h1 ⊢
      rw [processClassroom_filter_other resv today t0 codeOf acc cls0 cls
        today t hne]
      exact h1
    · exact Or.inr
        (processClassroom_C7Done resv today t0 codeOf acc cls0 cls t hd)

/-- A triple whose single code row is already notified stays untouched and
receives no mail through any classroom-processing step. -/
theorem processClassroom_C7Quiet (resv : State) (today t0 : Nat)
    (codeOf : Nat → Nat → Nat) (acc : SendAcc) (cls0 cls t : Nat)
    (a : AccessCode) (hnot : a.notified = true)
    (hfil : acc.codes.filter (codeTriple cls today t) = [a])
    (hclean : ∀ mail ∈ acc.mails,
      ¬(mail.classroomId = cls ∧ mail.timeSlot = t)) :
    (processClassroom resv today t0 codeOf acc cls0).codes.filter
        (codeTriple cls today t) = [a] ∧
    ∀ mail ∈ (processClassroom resv today t0 codeOf acc cls0).mails,
      ¬(mail.classroomId = cls ∧ mail.timeSlot = t) := by
  by_cases hqq : cls0 = cls ∧ t0 = t
  · obtain ⟨rfl, rfl⟩ := hqq
    obtain ⟨hcs, hms⟩ :=
      processClassroom_skip resv today t0 codeOf acc cls0 a hfil hnot
    exact ⟨by rw [hcs]; exact hfil, by rw [hms]; exact hclean⟩
  · have hne : ¬(cls0 = cls ∧ today = today ∧ t0 = t) :=
      fun h => hqq ⟨h.1, h.2.2⟩
    obtain ⟨l, hl, hlm⟩ := processClassroom_mails resv today t0 codeOf acc cls0
    constructor
    · rw [processClassroom_filter_other resv today t0 codeOf acc cls0 cls
        today t hne]
      exact hfil
    · intro mail hm
      rw [hl] at hm
      rcases List.mem_append.mp hm with h1 | h2
      · exact hclean mail h1
      · obtain ⟨hc, ht⟩ := hlm mail h2
        rintro ⟨hc2, ht2⟩
        exact hqq ⟨hc.symm.trans hc2, ht.symm.trans ht2⟩

/-- A slot with no parseable start time is skipped. -/
theorem sendSlotStep_none (env : Env) (now : Int) (today : Nat)
    (resv : State) (classrooms : List Nat) (codeOf : Nat → Nat → Nat)
    (acc : SendAcc) (t0 : Nat) :
    sendSlotStep env now today resv classrooms codeOf acc (t0, none) =
      acc := rfl

/-- A slot with a parsed start processes the classrooms exactly when now
lies in its notification window. -/
theorem sendSlotStep_some (env : Env) (now : Int) (today : Nat)
    (resv : State) (classrooms : List Nat) (codeOf : Nat → Nat → Nat)
    (acc : SendAcc) (t0 : Nat) (m : Int) :
    sendSlotStep env now today resv classrooms codeOf acc (t0, some m) =
      if inNotifyWindow env now today m then
        classrooms.foldl (processClassroom resv today t0 codeOf) acc
      else acc := rfl

/-- The C7 outcome survives a whole classroom fold. -/
theorem pcFold_C7Done (resv : State) (today t0 : Nat)
    (codeOf : Nat → Nat → Nat) (cls t : Nat) :
    ∀ (L : List Nat) (acc : SendAcc), C7Done resv today t cls acc →
      C7Done resv today t cls
        (L.foldl (processClassroom resv today t0 codeOf) acc)
  | [], _, hd => hd
  | c0 :: rest, acc, hd => by
    rw [List.foldl_cons]
    exact pcFold_C7Done resv today t0 codeOf cls t rest _
      (processClassroom_C7Done resv today t0 codeOf acc c0 cls t hd)

/-- The untouched-or-done alternative survives a whole classroom fold. -/
theorem pcFold_C7Inv (resv : State) (today t0 : Nat)
    (codeOf : Nat → Nat → Nat) (cls t : Nat) (codes0 : List AccessCode)
    (hinit : codes0.filter (codeTriple cls today t) = [] ∨
      ∃ a, codes0.filter (codeTriple cls today t) = [a] ∧
        a.notified = false) :
    ∀ (L : List Nat) (acc : SendAcc),
      C7Init today t cls codes0 acc ∨ C7Done resv today t cls acc →
      C7Init today t cls codes0
          (L.foldl (processClassroom resv today t0 codeOf) acc) ∨
        C7Done resv today t cls
          (L.foldl (processClassroom resv today t0 codeOf) acc)
  | [], _, hinv => hinv
  | c0 :: rest, acc, hinv => by
    rw [List.foldl_cons]
    exact pcFold_C7Inv resv today t0 codeOf cls t codes0 hinit rest _
      (processClassroom_C7Inv resv today t0 codeOf acc c0 cls t codes0
        hinit hinv)

/-- A notified triple stays untouched and unmailed through a whole
classroom fold. -/
theorem pcFold_C7Quiet (resv : State) (today t0 : Nat)
    (codeOf : Nat → Nat → Nat) (cls t : Nat) (a : AccessCode)
    (hnot : a.notified = true) :
    ∀ (L : List Nat) (acc : SendAcc),
      acc.codes.filter (codeTriple cls today t) = [a] →
      (∀ mail ∈ acc.mails,
        ¬(mail.classroomId = cls ∧ mail.timeSlot = t)) →
      (L.foldl (processClassroom resv today t0 codeOf) acc).codes.filter
          (codeTriple cls today t) = [a] ∧
      ∀ mail ∈ (L.foldl (processClassroom resv today t0 codeOf) acc).mails,
        ¬(mail.classroomId = cls ∧ mail.timeSlot = t)
  | [], _, hfil, hclean => ⟨hfil, hclean⟩
  | c0 :: rest, acc, hfil, hclean => by
    rw [List.foldl_cons]
    obtain ⟨hf2, hc2⟩ := processClassroom_C7Quiet resv today t0 codeOf acc c0
      cls t a hnot hfil hclean
    exact pcFold_C7Quiet resv today t0 codeOf cls t a hnot rest _ hf2 hc2

/-- One classroom-processing step keeps every triple's code-row count at
most one. -/
theorem processClassroom_countP (resv : State) (today t0 : Nat)
    (codeOf : Nat → Nat → Nat) (acc : SendAcc) (cls0 : Nat)
    (cls d t : Nat)
    (h : acc.codes.countP (codeTriple cls d t) ≤ 1) :
    (processClassroom resv today t0 codeOf acc cls0).codes.countP
      (codeTriple cls d t) ≤ 1 := by
  rw [List.countP_eq_length_filter] at h ⊢
  by_cases hne : cls0 = cls ∧ today = d ∧ t0 = t
  · obtain ⟨rfl, rfl, rfl⟩ := hne
    cases hfil : acc.codes.filter (codeTriple cls0 today t0) with
    | nil =>
      rw [(processClassroom_fresh resv today t0 codeOf acc cls0 hfil).1]
      simp
    | cons a rest =>
      have hrest : rest = [] := by
        rw [hfil] at h
        simp only [List.length_cons] at h
        exact List.eq_nil_of_length_eq_zero (by omega)
      subst hrest
      cases hnot : a.notified
      · rw [(processClassroom_hit resv today t0 codeOf acc cls0 a hfil
          hnot).1]
        simp
      · rw [(processClassroom_skip resv today t0 codeOf acc cls0 a hfil
          hnot).1]
        rw [hfil]
        simp
  · rw [processClassroom_filter_other resv today t0 codeOf acc cls0 cls d t
      hne]
    exact h

/-- The per-triple code-row bound survives a whole classroom fold. -/
theorem pcFold_countP (resv : State) (today t0 : Nat)
    (codeOf : Nat → Nat → Nat) (cls d t : Nat) :
    ∀ (L : List Nat) (acc : SendAcc),
      acc.codes.countP (codeTriple cls d t) ≤ 1 →
      (L.foldl (processClassroom resv today t0 codeOf) acc).codes.countP
        (codeTriple cls d t) ≤ 1
  | [], _, h => h
  | c0 :: rest, acc, h => by
    rw [List.foldl_cons]
    exact pcFold_countP resv today t0 codeOf cls d t rest _
      (processClassroom_countP resv today t0 codeOf acc c0 cls d t h)

/-- Mails appended by a whole classroom fold name its classrooms and
slot. -/
theorem pcFold_mails (resv : State) (today t0 : Nat)
    (codeOf : Nat → Nat → Nat) :
    ∀ (L : List Nat) (acc : SendAcc),
      ∃ l, (L.foldl (processClassroom resv today t0 codeOf) acc).mails =
          acc.mails ++ l ∧
        ∀ mail ∈ l, mail.classroomId ∈ L ∧ mail.timeSlot = t0
  | [], acc => ⟨[], by simp, by simp⟩
  | c0 :: rest, acc => by
    obtain ⟨l1, hl1, hm1⟩ := processClassroom_mails resv today t0 codeOf acc c0
    obtain ⟨l2, hl2, hm2⟩ := pcFold_mails resv today t0 codeOf rest
      (processClassroom resv today t0 codeOf acc c0)
    refine ⟨l1 ++ l2, ?_, ?_⟩
    · rw [List.foldl_cons, hl2, hl1, List.append_assoc]
    · intro mail hm
      rcases List.mem_append.mp hm with h1 | h2
      · obtain ⟨hc, ht⟩ := hm1 mail h1
        exact ⟨by rw [hc]; exact List.mem_cons_self _ _, ht⟩
      · obtain ⟨hc, ht⟩ := hm2 mail h2
        exact ⟨List.mem_cons_of_mem _ hc, ht⟩

/-- One slot step keeps the untouched-or-done alternative. -/
theorem sendSlotStep_C7Inv (env : Env) (now : Int) (today : Nat)
    (resv : State) (classrooms : List Nat) (codeOf : Nat → Nat → Nat)
    (acc : SendAcc) (p : Nat × Option Int) (cls t : Nat)
    (codes0 : List AccessCode)
    (hinit : codes0.filter (codeTriple cls today t) = [] ∨
      ∃ a, codes0.filter (codeTriple cls today t) = [a] ∧
        a.notified = false)
    (hinv : C7Init today t cls codes0 acc ∨ C7Done resv today t cls acc) :
    C7Init today t cls codes0
        (sendSlotStep env now today resv classrooms codeOf acc p) ∨
      C7Done resv today t cls
        (sendSlotStep env now today resv classrooms codeOf acc p) := by
  obtain ⟨t0, po⟩ := p
  cases po with
  | none => rw [sendSlotStep_none]; exact hinv
  | some m =>
    rw [sendSlotStep_some]
    split
    · exact pcFold_C7Inv resv today t0 codeOf cls t codes0 hinit
        classrooms acc hinv
    · exact hinv

/-- One slot step keeps the C7 outcome. -/
theorem sendSlotStep_C7Done (env : Env) (now : Int) (today : Nat)
    (resv : State) (classrooms : List Nat) (codeOf : Nat → Nat → Nat)
    (acc : SendAcc) (p : Nat × Option Int) (cls t : Nat)
    (hd : C7Done resv today t cls acc) :
    C7Done resv today t cls
      (sendSlotStep env now today resv classrooms codeOf acc p) := by
  obtain ⟨t0, po⟩ := p
  cases po with
  | none => rw [sendSlotStep_none]; exact hd
  | some m =>
    rw [sendSlotStep_some]
    split
    · exact pcFold_C7Done resv today t0 codeOf cls t classrooms acc hd
    · exact hd

/-- One slot step keeps a notified triple untouched and unmailed. -/
theorem sendSlotStep_C7Quiet (env : Env) (now : Int) (today : Nat)
    (resv : State) (classrooms : List Nat) (codeOf : Nat → Nat → Nat)
    (acc : SendAcc) (p : Nat × Option Int) (cls t : Nat) (a : AccessCode)
    (hnot : a.notified = true)
    (hfil : acc.codes.filter (codeTriple cls today t) = [a])
    (hclean : ∀ mail ∈ acc.mails,
      ¬(mail.classroomId = cls ∧ mail.timeSlot = t)) :
    (sendSlotStep env now today resv classrooms codeOf acc p).codes.filter
        (codeTriple cls today t) = [a] ∧
    ∀ mail ∈ (sendSlotStep env now today resv classrooms codeOf
        acc p).mails,
      ¬(mail.classroomId = cls ∧ mail.timeSlot = t) := by
  obtain ⟨t0, po⟩ := p
  cases po with
  | none => rw [sendSlotStep_none]; exact ⟨hfil, hclean⟩
  | some m =>
    rw [sendSlotStep_some]
    split
    · exact pcFold_C7Quiet resv today t0 codeOf cls t a hnot classrooms acc
        hfil hclean
    · exact ⟨hfil, hclean⟩

/-- One slot step keeps every triple's code-row count at most one. -/
theorem sendSlotStep_countP (env : Env) (now : Int) (today : Nat)
    (resv : State) (classrooms : List Nat) (codeOf : Nat → Nat → Nat)
    (acc : SendAcc) (p : Nat × Option Int) (cls d t : Nat)
    (h : acc.codes.countP (codeTriple cls d t) ≤ 1) :
    (sendSlotStep env now today resv classrooms codeOf acc p).codes.countP
      (codeTriple cls d t) ≤ 1 := by
  obtain ⟨t0, po⟩ := p
  cases po with
  | none => rw [sendSlotStep_none]; exact h
  | some m =>
    rw [sendSlotStep_some]
    split
    · exact pcFold_countP resv today t0 codeOf cls d t classrooms acc h
    · exact h

/-- Mails appended by one slot step come from its own slot, inside the
notification window, for processed classrooms. -/
theorem sendSlotStep_mails (env : Env) (now : Int) (today : Nat)
    (resv : State) (classrooms : List Nat) (codeOf : Nat → Nat → Nat)
    (acc : SendAcc) (p : Nat × Option Int) :
    ∃ l, (sendSlotStep env now today resv classrooms codeOf acc p).mails =
        acc.mails ++ l ∧
      ∀ mail ∈ l, mail.timeSlot = p.1 ∧ mail.classroomId ∈ classrooms ∧
        ∃ m, p.2 = some m ∧ inNotifyWindow env now today m = true := by
  obtain ⟨t0, po⟩ := p
  cases po with
  | none => rw [sendSlotStep_none]; exact ⟨[], by simp, by simp⟩
  | some m =>
    rw [sendSlotStep_some]
    split
    · next hw =>
      obtain ⟨l, hl, hm⟩ := pcFold_mails resv today t0 codeOf classrooms acc
      refine ⟨l, hl, ?_⟩
      intro mail hmem
      obtain ⟨hc, ht⟩ := hm mail hmem
      exact ⟨ht, hc, m, rfl, hw⟩
    · exact ⟨[], by simp, by simp⟩

/-- The untouched-or-done alternative survives the whole slot fold. -/
theorem sFold_C7Inv (env : Env) (now : Int) (today : Nat) (resv : State)
    (classrooms : List Nat) (codeOf : Nat → Nat → Nat) (cls t : Nat)
    (codes0 : List AccessCode)
    (hinit : codes0.filter (codeTriple cls today t) = [] ∨
      ∃ a, codes0.filter (codeTriple cls today t) = [a] ∧
        a.notified = false) :
    ∀ (S : List (Nat × Option Int)) (acc : SendAcc),
      C7Init today t cls codes0 acc ∨ C7Done resv today t cls acc →
      C7Init today t cls codes0
          (S.foldl (sendSlotStep env now today resv classrooms codeOf)
            acc) ∨
        C7Done resv today t cls
          (S.foldl (sendSlotStep env now today resv classrooms codeOf) acc)
  | [], _, hinv => hinv
  | p :: rest, acc, hinv => by
    rw [List.foldl_cons]
    exact sFold_C7Inv env now today resv classrooms codeOf cls t codes0
      hinit rest _
      (sendSlotStep_C7Inv env now today resv classrooms codeOf acc p cls t
        codes0 hinit hinv)

/-- The C7 outcome survives the whole slot fold. -/
theorem sFold_C7Done (env : Env) (now : Int) (today : Nat) (resv : State)
    (classrooms : List Nat) (codeOf : Nat → Nat → Nat) (cls t : Nat) :
    ∀ (S : List (Nat × Option Int)) (acc : SendAcc),
      C7Done resv today t cls acc →
      C7Done resv today t cls
        (S.foldl (sendSlotStep env now today resv classrooms codeOf) acc)
  | [], _, hd => hd
  | p :: rest, acc, hd => by
    rw [List.foldl_cons]
    exact sFold_C7Done env now today resv classrooms codeOf cls t rest _
      (sendSlotStep_C7Done env now today resv classrooms codeOf acc p cls t
        hd)

/-- A notified triple stays untouched and unmailed through the whole slot
fold. -/
theorem sFold_C7Quiet (env : Env) (now : Int) (today : Nat) (resv : State)
    (classrooms : List Nat) (codeOf : Nat → Nat → Nat) (cls t : Nat)
    (a : AccessCode) (hnot : a.notified = true) :
    ∀ (S : List (Nat × Option Int)) (acc : SendAcc),
      acc.codes.filter (codeTriple cls today t) = [a] →
      (∀ mail ∈ acc.mails,
        ¬(mail.classroomId = cls ∧ mail.timeSlot = t)) →
      (S.foldl (sendSlotStep env now today resv classrooms codeOf)
          acc).codes.filter (codeTriple cls today t) = [a] ∧
      ∀ mail ∈ (S.foldl (sendSlotStep env now today resv classrooms codeOf)
          acc).mails,
        ¬(mail.classroomId = cls ∧ mail.timeSlot = t)
  | [], _, hfil, hclean => ⟨hfil, hclean⟩
  | p :: rest, acc, hfil, hclean => by
    rw [List.foldl_cons]
    obtain ⟨hf2, hc2⟩ := sendSlotStep_C7Quiet env now today resv classrooms
      codeOf acc p cls t a hnot hfil hclean
    exact sFold_C7Quiet env now today resv classrooms codeOf cls t a hnot
      rest _ hf2 hc2

/-- The per-triple code-row bound survives the whole slot fold. -/
theorem sFold_countP (env : Env) (now : Int) (today : Nat) (resv : State)
    (classrooms : List Nat) (codeOf : Nat → Nat → Nat) (cls d t : Nat) :
    ∀ (S : List (Nat × Option Int)) (acc : SendAcc),
      acc.codes.countP (codeTriple cls d t) ≤ 1 →
      (S.foldl (sendSlotStep env now today resv classrooms codeOf)
        acc).codes.countP (codeTriple cls d t) ≤ 1
  | [], _, h => h
  | p :: rest, acc, h => by
    rw [List.foldl_cons]
    exact sFold_countP env now today resv classrooms codeOf cls d t rest _
      (sendSlotStep_countP env now today resv classrooms codeOf acc p cls
        d t h)

/-- Mails appended by the whole slot fold come from parseable slots of the
list whose window contains now. -/
theorem sFold_mails (env : Env) (now : Int) (today : Nat) (resv : State)
    (classrooms : List Nat) (codeOf : Nat → Nat → Nat) :
    ∀ (S : List (Nat × Option Int)) (acc : SendAcc),
      ∃ l, (S.foldl (sendSlotStep env now today resv classrooms codeOf)
          acc).mails = acc.mails ++ l ∧
        ∀ mail ∈ l, ∃ p ∈ S, ∃ m, mail.timeSlot = p.1 ∧
          mail.classroomId ∈ classrooms ∧ p.2 = some m ∧
          inNotifyWindow env now today m = true
  | [], acc => ⟨[], by simp, by simp⟩
  | p :: rest, acc => by
    obtain ⟨l1, hl1, hm1⟩ := sendSlotStep_mails env now today resv
      classrooms codeOf acc p
    obtain ⟨l2, hl2, hm2⟩ := sFold_mails env now today resv classrooms
      codeOf rest (sendSlotStep env now today resv classrooms codeOf acc p)
    refine ⟨l1 ++ l2, ?_, ?_⟩
    · rw [List.foldl_cons, hl2, hl1, List.append_assoc]
    · intro mail hm
      rcases List.mem_append.mp hm with h1 | h2
      · obtain ⟨ht, hc, m, hpm, hw⟩ := hm1 mail h1
        exact ⟨p, List.mem_cons_self _ _, m, ht, hc, hpm, hw⟩
      · obtain ⟨q, hq, m, ht, hc, hqm, hw⟩ := hm2 mail h2
        exact ⟨q, List.mem_cons_of_mem _ hq, m, ht, hc, hqm, hw⟩

/-- C7: One run of send_access_codes keeps the per-triple uniqueness of
AccessCode rows; for a parseable slot of today whose notification window
[start - ACCESS_CODE_NOTIFY_MINUTES, start) contains now and a processed
classroom whose triple is not yet notified, it ends with a single notified
code row for the triple and mails its code to every student holding an
approved reservation there; a triple already notified gets no mail, and a
slot without a parseable start or whose window does not contain now gets
no mail at all. -/
theorem res_C7 (env : Env) (now : Int) (today : Nat) (resv : State)
    (classrooms : List Nat) (codes : List AccessCode)
    (codeOf : Nat → Nat → Nat)
    (hcode : AtMostOneCode codes)
    (hslots : (env.slots.map Prod.fst).Nodup) :
    AtMostOneCode
      (sendAccessCodes env now today resv classrooms codes codeOf).codes ∧
    (∀ t m cls, (t, some m) ∈ env.slots →
      inNotifyWindow env now today m = true → cls ∈ classrooms →
      (∀ a ∈ codes, codeTriple cls today t a = true →
        a.notified = false) →
      ∃ c0,
        (sendAccessCodes env now today resv classrooms codes
            codeOf).codes.filter (codeTriple cls today t) =
          [{ classroomId := cls, date := today, timeSlot := t, code := c0,
             notified := true }] ∧
        (sendAccessCodes env now today resv classrooms codes
            codeOf).codes.countP (codeTriple cls today t) = 1 ∧
        ∀ stu ∈ approvedStudents resv cls today t,
          ({ studentId := stu, classroomId := cls, timeSlot := t,
             code := c0 } : CodeMail) ∈
            (sendAccessCodes env now today resv classrooms codes
              codeOf).mails) ∧
    (∀ t cls a, a ∈ codes → codeTriple cls today t a = true →
      a.notified = true →
      ∀ mail ∈ (sendAccessCodes env now today resv classrooms codes
          codeOf).mails,
        ¬(mail.classroomId = cls ∧ mail.timeSlot = t)) ∧
    (∀ t po, (t, po) ∈ env.slots →
      (∀ m, po = some m → inNotifyWindow env now today m = false) →
      ∀ mail ∈ (sendAccessCodes env now today resv classrooms codes
          codeOf).mails,
        mail.timeSlot ≠ t) := by
  refine ⟨?_, ?_, ?_, ?_⟩
  · intro cls d t
    exact sFold_countP env now today resv classrooms codeOf cls d t
      env.slots { codes := codes, mails := [] } (hcode cls d t)
  · intro t m cls hslot hw hcls hnotif
    have hfil0 : codes.filter (codeTriple cls today t) = [] ∨
        ∃ a, codes.filter (codeTriple cls today t) = [a] ∧
          a.notified = false := by
      have hlen : (codes.filter (codeTriple cls today t)).length ≤ 1 := by
        rw [← List.countP_eq_length_filter]
        exact hcode cls today t
      cases hfc : codes.filter (codeTriple cls today t) with
      | nil => exact Or.inl rfl
      | cons a rest =>
        right
        have hrest : rest = [] := by
          rw [hfc] at hlen
          simp only [List.length_cons] at hlen
          exact List.eq_nil_of_length_eq_zero (by omega)
        subst hrest
        have ha : a ∈ codes.filter (codeTriple cls today t) := by
          rw [hfc]
          exact List.mem_singleton_self a
        exact ⟨a, rfl,
          hnotif a (List.mem_filter.mp ha).1 (List.mem_filter.mp ha).2⟩
    obtain ⟨S1, S2, hS⟩ := List.append_of_mem hslot
    obtain ⟨C1, C2, hC⟩ := List.append_of_mem hcls
    have hdone : C7Done resv today t cls
        (sendAccessCodes env now today resv classrooms codes codeOf) := by
      unfold sendAccessCodes
      rw [hS, List.foldl_append, List.foldl_cons]
      refine sFold_C7Done env now today resv classrooms codeOf cls t S2 _
        ?_
      rw [sendSlotStep_some, if_pos hw, hC, List.foldl_append,
        List.foldl_cons]
      refine pcFold_C7Done resv today t codeOf cls t C2 _ ?_
      refine processClassroom_self_C7 resv today t codeOf _ cls codes
        hfil0 ?_
      refine pcFold_C7Inv resv today t codeOf cls t codes hfil0 C1 _ ?_
      refine sFold_C7Inv env now today resv (C1 ++ cls :: C2) codeOf cls t
        codes hfil0 S1 _ ?_
      exact Or.inl rfl
    obtain ⟨c0, hfil, hmails⟩ := hdone
    refine ⟨c0, hfil, ?_, hmails⟩
    rw [List.countP_eq_length_filter, hfil]
    rfl
  · intro t cls a hacodes hPa hnot mail hmail
    have hfa : codes.filter (codeTriple cls today t) = [a] := by
      have ha : a ∈ codes.filter (codeTriple cls today t) :=
        List.mem_filter.mpr ⟨hacodes, hPa⟩
      have hlen : (codes.filter (codeTriple cls today t)).length ≤ 1 := by
        rw [← List.countP_eq_length_filter]
        exact hcode cls today t
      cases hfc : codes.filter (codeTriple cls today t) with
      | nil => rw [hfc] at ha; cases ha
      | cons b rest =>
        have hrest : rest = [] := by
          rw [hfc] at hlen
          simp only [List.length_cons] at hlen
          exact List.eq_nil_of_length_eq_zero (by omega)
        subst hrest
        rw [hfc] at ha
        have hab : a = b := List.mem_singleton.mp ha
        rw [← hab]
    have hq := sFold_C7Quiet env now today resv classrooms codeOf cls t a
      hnot env.slots { codes := codes, mails := [] } hfa
      (by intro mail hm; cases hm)
    exact hq.2 mail hmail
  · intro t po hslot hout mail hmail
    obtain ⟨l, hl, hm⟩ := sFold_mails env now today resv classrooms codeOf
      env.slots { codes := codes, mails := [] }
    have hmem : mail ∈ l := by
      have h2 : (sendAccessCodes env now today resv classrooms codes
          codeOf).mails = l := by
        show (env.slots.foldl
          (sendSlotStep env now today resv classrooms codeOf)
          { codes := codes, mails := [] }).mails = l
        rw [hl]
        rfl
      rw [h2] at hmail
      exact hmail
    obtain ⟨p, hp, m, ht, hc, hpm, hw⟩ := hm mail hmem
    intro hts
    have hp1 : p.1 = t := ht.symm.trans hts
    have hpeq : p = (t, po) :=
      List.inj_on_of_nodup_map hslots hp hslot hp1
    have hpo : po = some m := (congrArg Prod.snd hpeq).symm.trans hpm
    have hcontra := hout m hpo
    rw [hcontra] at hw
    cases hw

/-- Witness for res_C7 at a concrete input: at minute 470, inside the
15-minute window of the 08:00 slot, the run creates one notified code row
for classroom 1 and mails its code to the approved student. -/
theorem res_C7_witness :
    ∃ c0, (sendAccessCodes env0 470 0 [cl1] [1] []
        fun _ _ => 42).codes.filter (codeTriple 1 0 1) =
      [{ classroomId := 1, date := 0, timeSlot := 1, code := c0,
         notified := true }] ∧
    (sendAccessCodes env0 470 0 [cl1] [1] []
        fun _ _ => 42).codes.countP (codeTriple 1 0 1) = 1 ∧
    ∀ stu ∈ approvedStudents [cl1] 1 0 1,
      ({ studentId := stu, classroomId := 1, timeSlot := 1,
         code := c0 } : CodeMail) ∈
        (sendAccessCodes env0 470 0 [cl1] [1] [] fun _ _ => 42).mails :=
  (res_C7 env0 470 0 [cl1] [1] [] (fun _ _ => 42)
    (by intro cls d t; simp) (by decide)).2.1 1 480 1
    (by decide) (by decide) (by decide) (by intro a ha; cases ha)
